import Mathlib

/-!
Verification development for the Space-Launch-Telemetry-Analyzer repository.

Part 1 embeds `ocr/extract_data.py` (the per-frame extraction dispatcher).
Part 2 embeds the cleaning stage: `plot/data_processing.py` (`detect_vehicles`),
`plot/data_cleaning.py` (`clean_dataframe`) and `plot/fuel_processing.py`
(`prepare_fuel_data_columns`, `normalize_fuel_levels`).

Numeric telemetry values are Python floats in the source; every constant the
claims exercise is integral and the relevant logic is exact order arithmetic
(differences, absolute values, max/min, threshold comparisons), so values are
embedded as `Int`.

External decoders (`extract_values_from_roi`, `detect_engine_status`,
`extract_fuel_levels`, `convert_measurement`) are out-of-scope collaborators;
they are modelled as oracle function fields of an `Env` structure, returning
`Except Unit _` so that "the decoder raised" is representable.  The fuel
oracle is indexed by its invocation count so that call-counting properties
and mocks whose behaviour changes between calls are expressible.

The ROI manager (`ocr/roi_manager.py`) is not part of the analysed sources;
`extract_data` only consumes `mgr.vehicles` and `mgr.get_active_rois(frame_idx)`,
which appear as the `vehicles` and `active_rois` fields of `Env`.
-/

/-- Python `max(a, b)` on integers. -/
def imax (a b : Int) : Int := if a < b then b else a

/-- Python `min(a, b)` on integers. -/
def imin (a b : Int) : Int := if a < b then a else b

/-- Python `abs(a)` on integers. -/
def iabs (a : Int) : Int := if a < 0 then -a else a

namespace Extract

/-- Numeric telemetry value (Python float in the source, embedded as `Int`). -/
abbrev Val := Int

/-- Result of the time OCR: the dict `{"sign": ..., "hours": ..., "minutes": ..., "seconds": ...}`. -/
structure TimeVal where
  sign : String
  hours : Int
  minutes : Int
  seconds : Int
  deriving DecidableEq

/-- One fuel tank entry `{"fullness": ...}`. -/
structure FuelTank where
  fullness : Val
  deriving DecidableEq

/-- Per-vehicle fuel dict `{"lox": {...}, "ch4": {...}}`. -/
structure FuelData where
  lox : FuelTank
  ch4 : FuelTank
  deriving DecidableEq

/-- The zero default `{"lox": {"fullness": 0}, "ch4": {"fullness": 0}}`. -/
def defaultFuel : FuelData := ⟨⟨0⟩, ⟨0⟩⟩

/-- Engine detector output: mapping group name to per-engine booleans. -/
abbrev Engines := List (String × List Bool)

/-- Per-vehicle record in `vehicles_data`. -/
structure VehicleData where
  speed : Option Val
  altitude : Option Val
  fuel : FuelData
  engines : Engines
  deriving DecidableEq

/-- `{"speed": None, "altitude": None, "fuel": {"lox": {"fullness": 0}, "ch4": {"fullness": 0}}, "engines": {}}` -/
def defaultVehicleData : VehicleData := ⟨none, none, defaultFuel, []⟩

/-- A sliced region `(y0, y1, x0, x1)`; stands for the cropped image `img[y0:y1, x0:x1]`. -/
abbrev Slice := Int × Int × Int × Int

/-- One configured ROI, with the fields `extract_data` reads. -/
structure ROI where
  id : String
  vehicle : Option String
  x : Int
  y : Int
  w : Int
  h : Int
  points : List (String × List (Int × Int))
  measurement_unit : String

/-- `slice_roi(img, y, h, x, w)` from `ocr/extract_data.py`; `ih`, `iw` are
`img.shape[0]`, `img.shape[1]`.  Returns `None` exactly when the clamped
region is empty. -/
def slice_roi (ih iw y h x w : Int) : Option Slice :=
  let y0 := imax 0 y
  let x0 := imax 0 x
  let y1 := imin ih (y + h)
  let x1 := imin iw (x + w)
  if y1 ≤ y0 ∨ x1 ≤ x0 then none else some (y0, y1, x0, x1)

/-- The configuration plus the external collaborators of one `extract_data` call.
`ocr_num` is `extract_values_from_roi(roi_img, mode=...)["value"]` (an `Except.ok none`
is a dict without a usable `"value"`); `ocr_time` is the same decoder in `"time"` mode;
`extract_fuel_levels` is indexed by how many times it has been invoked during this call. -/
structure Env where
  vehicles : List String
  active_rois : List ROI
  ih : Int
  iw : Int
  ocr_num : Slice → String → Except Unit (Option Val)
  ocr_time : Slice → String → Except Unit (Option TimeVal)
  detect_engine_status : List (String × List (Int × Int)) → Except Unit Engines
  extract_fuel_levels : Nat → Except Unit (List (String × FuelData))
  convert_measurement : Val → String → String → Except Unit Val

/-- `value = data.get("value"); if value is not None and roi.measurement_unit !=
<canonical>: value = convert_measurement(value, mt, roi.measurement_unit)`.
`convert_measurement` (from `utils/measurement_converter.py`) raises on an
unsupported unit, and in `extract_data` this call is outside every `try/except`. -/
def convertValue (env : Env) (data : Option Val) (mt canon unit : String) :
    Except Unit (Option Val) :=
  match data with
  | none => Except.ok none
  | some x =>
    if unit ≠ canon then (env.convert_measurement x mt unit).map some
    else Except.ok (some x)

/-- `extract_time_data` from `ocr/extract_data.py`: returns the latched zero time
when `zero_time_met`, otherwise invokes the time OCR, catching any exception and
returning the empty dict (`none`). -/
def extract_time_data (env : Env) (sl : Slice) (zero_time_met : Bool) (regex : String) :
    Option TimeVal :=
  if zero_time_met then some ⟨"+", 0, 0, 0⟩
  else
    match env.ocr_time sl regex with
    | Except.ok t => t
    | Except.error _ => none

/-- Dict lookup `vehicles_data[v]` as an option. -/
def lookupVD : List (String × VehicleData) → String → Option VehicleData
  | [], _ => none
  | (k, d) :: rest, u => if u = k then some d else lookupVD rest u

/-- `vehicles_data[u][field] = ...`: update the entry for key `u`; `none` models the
`KeyError` Python raises when `u` is absent. -/
def setField : List (String × VehicleData) → String → (VehicleData → VehicleData) →
    Option (List (String × VehicleData))
  | [], _, _ => none
  | (k, d) :: rest, u, f =>
    if u = k then some ((k, f d) :: rest)
    else
      match setField rest u f with
      | none => none
      | some rest2 => some ((k, d) :: rest2)

/-- `fuel_data.get(v)` as an option. -/
def lookupFuel : List (String × FuelData) → String → Option FuelData
  | [], _ => none
  | (k, d) :: rest, u => if u = k then some d else lookupFuel rest u

/-- The broadcast loop `for vehicle in mgr.vehicles: vehicles_data[vehicle]["fuel"] =
fuel_data.get(vehicle, default)`.  A `KeyError` mid-loop is caught by the enclosing
`except`, leaving the updates made so far in place; the `Bool` records whether the
loop completed (only then does the source set `fuel_extracted = True`). -/
def broadcastFuel : List (String × VehicleData) → List String → List (String × FuelData) →
    List (String × VehicleData) × Bool
  | vd, [], _ => (vd, true)
  | vd, v :: rest, fuel_data =>
    match setField vd v (fun d => { d with fuel := (lookupFuel fuel_data v).getD defaultFuel }) with
    | some vd2 => broadcastFuel vd2 rest fuel_data
    | none => (vd, false)

/-- The mutable state of the `for roi in active_rois` loop, instrumented with the
number of fuel-detector invocations so far. -/
structure ExtractState where
  vehicles_data : List (String × VehicleData)
  time_data : Option TimeVal
  fuel_extracted : Bool
  fuelCalls : Nat

/-- One iteration of the ROI loop of `extract_data`.  `Except.error st` means an
exception escaped the iteration (aborting the whole call) with `st` the state at
that moment; only the time OCR and the fuel-branch bodies are wrapped in
`try/except` in the source. -/
def processROI (env : Env) (zero_time_met : Bool) (st : ExtractState) (roi : ROI) :
    Except ExtractState ExtractState :=
  match slice_roi env.ih env.iw roi.y roi.h roi.x roi.w with
  | none => Except.ok st
  | some sl =>
    if roi.id = "time" then
      Except.ok { st with time_data := extract_time_data env sl zero_time_met roi.measurement_unit }
    else
      match roi.vehicle with
      | none => Except.ok st
      | some vehicle =>
        -- `elif roi.vehicle:` — None and the empty string are falsy
        if vehicle = "" then Except.ok st
        else if roi.id = "speed" then
          match env.ocr_num sl "speed" with
          | Except.error _ => Except.error st
          | Except.ok data =>
            match convertValue env data "speed" "km/h" roi.measurement_unit with
            | Except.error _ => Except.error st
            | Except.ok value =>
              match setField st.vehicles_data vehicle (fun d => { d with speed := value }) with
              | none => Except.error st
              | some vd => Except.ok { st with vehicles_data := vd }
        else if roi.id = "altitude" then
          match env.ocr_num sl "altitude" with
          | Except.error _ => Except.error st
          | Except.ok data =>
            match convertValue env data "altitude" "km" roi.measurement_unit with
            | Except.error _ => Except.error st
            | Except.ok value =>
              match setField st.vehicles_data vehicle (fun d => { d with altitude := value }) with
              | none => Except.error st
              | some vd => Except.ok { st with vehicles_data := vd }
        else if roi.id = "engines" then
          -- `engines = detect_engine_status(roi.points, image) if roi.points else {}`
          if roi.points.isEmpty then
            match setField st.vehicles_data vehicle (fun d => { d with engines := [] }) with
            | none => Except.error st
            | some vd => Except.ok { st with vehicles_data := vd }
          else
            match env.detect_engine_status roi.points with
            | Except.error _ => Except.error st
            | Except.ok engines =>
              match setField st.vehicles_data vehicle (fun d => { d with engines := engines }) with
              | none => Except.error st
              | some vd => Except.ok { st with vehicles_data := vd }
        else if roi.id = "fuel" ∧ st.fuel_extracted = false then
          -- the whole branch body is inside `try: ... except Exception: log`
          match env.extract_fuel_levels st.fuelCalls with
          | Except.error _ => Except.ok { st with fuelCalls := st.fuelCalls + 1 }
          | Except.ok fuel_data =>
            match broadcastFuel st.vehicles_data env.vehicles fuel_data with
            | (vd, true) =>
              Except.ok { st with vehicles_data := vd, fuel_extracted := true,
                                  fuelCalls := st.fuelCalls + 1 }
            | (vd, false) =>
              Except.ok { st with vehicles_data := vd, fuelCalls := st.fuelCalls + 1 }
        else Except.ok st

/-- The `for roi in active_rois` loop; stops early when an exception escapes an
iteration, returning the state at that point and `false`. -/
def runLoop (env : Env) (zero_time_met : Bool) : List ROI → ExtractState → ExtractState × Bool
  | [], st => (st, true)
  | roi :: rest, st =>
    match processROI env zero_time_met st roi with
    | Except.ok st2 => runLoop env zero_time_met rest st2
    | Except.error st2 => (st2, false)

/-- The initialization loop `for vehicle in mgr.vehicles: vehicles_data[vehicle] = {...}`. -/
def initState (env : Env) : ExtractState :=
  ⟨env.vehicles.map (fun v => (v, defaultVehicleData)), none, false, 0⟩

/-- The whole ROI loop of one `extract_data` call, with the final (or
exception-time) instrumented state. -/
def extract_run (env : Env) (zero_time_met : Bool) : ExtractState × Bool :=
  runLoop env zero_time_met env.active_rois (initState env)

/-- The returned `{"vehicles": ..., "time": ...}` record. -/
structure Record where
  vehicles : List (String × VehicleData)
  time : Option TimeVal
  deriving DecidableEq

/-- `extract_data` from `ocr/extract_data.py`: `Except.error ()` when an uncaught
exception aborts the call. -/
def extract_data (env : Env) (zero_time_met : Bool) : Except Unit Record :=
  match extract_run env zero_time_met with
  | (st, true) => Except.ok ⟨st.vehicles_data, st.time_data⟩
  | (_, false) => Except.error ()


/-- Whether an `Except` computation returned without raising. -/
def isOk {α : Type} : Except Unit α → Bool
  | Except.ok _ => true
  | Except.error _ => false

theorem setField_eq_none {m : List (String × VehicleData)} {u : String}
    {f : VehicleData → VehicleData} :
    setField m u f = none ↔ lookupVD m u = none := by
  induction m with
  | nil => simp [setField, lookupVD]
  | cons kd rest ih =>
    obtain ⟨k, d⟩ := kd
    by_cases hk : u = k
    · simp [setField, lookupVD, hk]
    · simp only [setField, lookupVD, if_neg hk]
      cases hrec : setField rest u f with
      | none => simpa [hrec] using ih.mp hrec
      | some rest2 =>
        simp only [hrec]
        constructor
        · intro hcontra; cases hcontra
        · intro hl
          have : setField rest u f = none := ih.mpr hl
          rw [this] at hrec; cases hrec

theorem lookupVD_setField {m m2 : List (String × VehicleData)} {u : String}
    {f : VehicleData → VehicleData} (h : setField m u f = some m2) (w : String) :
    lookupVD m2 w = if w = u then (lookupVD m u).map f else lookupVD m w := by
  induction m generalizing m2 with
  | nil => simp [setField] at h
  | cons kd rest ih =>
    obtain ⟨k, d⟩ := kd
    by_cases hk : u = k
    · subst hk
      simp only [setField, if_pos rfl] at h
      cases h
      by_cases hw : w = u
      · simp [lookupVD, hw]
      · simp [lookupVD, hw]
    · simp only [setField, if_neg hk] at h
      cases hrec : setField rest u f with
      | none => rw [hrec] at h; cases h
      | some rest2 =>
        rw [hrec] at h; cases h
        by_cases hw : w = k
        · subst hw
          have hwu : ¬ w = u := fun hc => hk hc.symm
          simp [lookupVD, hwu]
        · simp only [lookupVD, if_neg hw]
          rw [ih hrec]
          by_cases hwu : w = u
          · simp [hwu, lookupVD, if_neg (by intro hc; exact hk hc : ¬ u = k)]
          · simp [hwu]

theorem isSome_lookupVD_setField {m m2 : List (String × VehicleData)} {u : String}
    {f : VehicleData → VehicleData} (h : setField m u f = some m2) (w : String) :
    (lookupVD m2 w).isSome = (lookupVD m w).isSome := by
  rw [lookupVD_setField h w]
  by_cases hw : w = u
  · subst hw; simp
  · simp [hw]

theorem setField_isSome {m : List (String × VehicleData)} {u : String}
    {f : VehicleData → VehicleData} (h : (lookupVD m u).isSome = true) :
    ∃ m2, setField m u f = some m2 := by
  cases hs : setField m u f with
  | none =>
    have := setField_eq_none.mp hs
    rw [this] at h; cases h
  | some m2 => exact ⟨m2, rfl⟩

theorem broadcastFuel_isSome (fd : List (String × FuelData)) :
    ∀ (vs : List String) (m : List (String × VehicleData)) (w : String),
      (lookupVD (broadcastFuel m vs fd).1 w).isSome = (lookupVD m w).isSome := by
  intro vs
  induction vs with
  | nil => intro m w; rfl
  | cons v rest ih =>
    intro m w
    simp only [broadcastFuel]
    cases hs : setField m v
        (fun d => { d with fuel := (lookupFuel fd v).getD defaultFuel }) with
    | none => rfl
    | some m2 => rw [ih m2 w, isSome_lookupVD_setField hs w]

theorem broadcastFuel_complete (fd : List (String × FuelData)) :
    ∀ (vs : List String) (m : List (String × VehicleData)),
      (∀ w ∈ vs, (lookupVD m w).isSome = true) →
      (broadcastFuel m vs fd).2 = true := by
  intro vs
  induction vs with
  | nil => intro m _; rfl
  | cons v rest ih =>
    intro m hkeys
    simp only [broadcastFuel]
    obtain ⟨m2, hs⟩ := setField_isSome (f := fun d =>
      { d with fuel := (lookupFuel fd v).getD defaultFuel }) (hkeys v (by simp))
    rw [hs]
    exact ih m2 (fun w hw => by
      rw [isSome_lookupVD_setField hs w]; exact hkeys w (by simp [hw]))

theorem broadcastFuel_lookup (fd : List (String × FuelData)) :
    ∀ (vs : List String) (m : List (String × VehicleData)),
      vs.Nodup → (∀ w ∈ vs, (lookupVD m w).isSome = true) →
      ∀ u, lookupVD (broadcastFuel m vs fd).1 u =
        if u ∈ vs then
          (lookupVD m u).map (fun d => { d with fuel := (lookupFuel fd u).getD defaultFuel })
        else lookupVD m u := by
  intro vs
  induction vs with
  | nil => intro m _ _ u; simp [broadcastFuel]
  | cons v rest ih =>
    intro m hnd hkeys u
    simp only [broadcastFuel]
    obtain ⟨m2, hs⟩ := setField_isSome (f := fun d =>
      { d with fuel := (lookupFuel fd v).getD defaultFuel }) (hkeys v (by simp))
    rw [hs]
    have hkeys2 : ∀ w ∈ rest, (lookupVD m2 w).isSome = true := fun w hw => by
      rw [isSome_lookupVD_setField hs w]; exact hkeys w (by simp [hw])
    rw [ih m2 (List.Nodup.of_cons hnd) hkeys2 u]
    have hlu := lookupVD_setField hs u
    by_cases hur : u ∈ rest
    · have huv : u ≠ v := by
        intro hc; subst hc; exact (List.nodup_cons.mp hnd).1 hur
      rw [if_pos hur, if_pos (by simp [hur]), hlu, if_neg huv]
    · by_cases huv : u = v
      · subst huv
        rw [if_neg hur, if_pos (by simp), hlu, if_pos rfl]
      · rw [if_neg hur, if_neg (by simp [huv, hur]), hlu, if_neg huv]


theorem processROI_error_eq {env : Env} {ztm : Bool} {st st2 : ExtractState} {roi : ROI}
    (h : processROI env ztm st roi = Except.error st2) : st2 = st := by
  simp only [processROI] at h
  repeat' split at h
  all_goals simp_all

theorem processROI_vehdata {env : Env} {ztm : Bool} {st st2 : ExtractState} {roi : ROI}
    (h : processROI env ztm st roi = Except.ok st2) (w : String) :
    (lookupVD st2.vehicles_data w).isSome = (lookupVD st.vehicles_data w).isSome := by
  simp only [processROI] at h
  repeat' split at h
  all_goals cases h
  all_goals
    first
      | rfl
      | (exact isSome_lookupVD_setField (by assumption) w)
      | (rename_i vd heq
         rename_i fd heqok xpair
         have h3 := broadcastFuel_isSome fd env.vehicles st.vehicles_data w
         rw [heq] at h3
         exact h3)

theorem processROI_fuel_inv {env : Env} {ztm : Bool} {st st2 : ExtractState} {roi : ROI}
    (h : processROI env ztm st roi = Except.ok st2)
    (hkeys : ∀ w ∈ env.vehicles, (lookupVD st.vehicles_data w).isSome = true)
    (h0 : isOk (env.extract_fuel_levels 0) = true)
    (hc : st.fuelCalls ≤ 1) (hfe : st.fuel_extracted = false → st.fuelCalls = 0) :
    st2.fuelCalls ≤ 1 ∧ (st2.fuel_extracted = false → st2.fuelCalls = 0) := by
  simp only [processROI] at h
  repeat' split at h
  all_goals cases h
  · exact ⟨hc, hfe⟩
  · exact ⟨hc, hfe⟩
  · exact ⟨hc, hfe⟩
  · exact ⟨hc, hfe⟩
  · exact ⟨hc, hfe⟩
  · exact ⟨hc, hfe⟩
  · exact ⟨hc, hfe⟩
  · exact ⟨hc, hfe⟩
  · rename_i a heqf
    obtain ⟨-, hfx⟩ : roi.id = "fuel" ∧ st.fuel_extracted = false := by assumption
    rw [← hfe hfx, heqf] at h0
    simp [isOk] at h0
  · obtain ⟨-, hfx⟩ : roi.id = "fuel" ∧ st.fuel_extracted = false := by assumption
    have hz := hfe hfx
    refine ⟨by simp [hz], fun hfx2 => ?_⟩
    simp at hfx2
  · rename_i fd heqok xpair vd hbc
    have hcomp := broadcastFuel_complete fd env.vehicles st.vehicles_data hkeys
    rw [hbc] at hcomp
    simp at hcomp
  · exact ⟨hc, hfe⟩

theorem runLoop_vehdata (env : Env) (ztm : Bool) :
    ∀ (rois : List ROI) (st : ExtractState) (w : String),
      (lookupVD (runLoop env ztm rois st).1.vehicles_data w).isSome
        = (lookupVD st.vehicles_data w).isSome := by
  intro rois
  induction rois with
  | nil => intro st w; rfl
  | cons roi rest ih =>
    intro st w
    simp only [runLoop]
    cases hp : processROI env ztm st roi with
    | ok st2 => rw [ih st2 w, processROI_vehdata hp w]
    | error st2 => rw [processROI_error_eq hp]

theorem runLoop_fuel_le (env : Env) (ztm : Bool)
    (h0 : isOk (env.extract_fuel_levels 0) = true) :
    ∀ (rois : List ROI) (st : ExtractState),
      (∀ w ∈ env.vehicles, (lookupVD st.vehicles_data w).isSome = true) →
      st.fuelCalls ≤ 1 → (st.fuel_extracted = false → st.fuelCalls = 0) →
      (runLoop env ztm rois st).1.fuelCalls ≤ 1 := by
  intro rois
  induction rois with
  | nil => intro st _ hc _; exact hc
  | cons roi rest ih =>
    intro st hkeys hc hfe
    simp only [runLoop]
    cases hp : processROI env ztm st roi with
    | ok st2 =>
      obtain ⟨hc2, hfe2⟩ := processROI_fuel_inv hp hkeys h0 hc hfe
      exact ih st2 (fun w hw => by rw [processROI_vehdata hp w]; exact hkeys w hw) hc2 hfe2
    | error st2 =>
      have := processROI_error_eq hp
      subst this
      exact hc

theorem lookupVD_map_default (vs : List String) (w : String) :
    lookupVD (vs.map (fun v => (v, defaultVehicleData))) w
      = if w ∈ vs then some defaultVehicleData else none := by
  induction vs with
  | nil => simp [lookupVD]
  | cons v rest ih =>
    by_cases hw : w = v
    · subst hw; simp [lookupVD]
    · simp [lookupVD, hw, ih]

theorem extract_run_vehdata (env : Env) (ztm : Bool) (w : String) :
    (lookupVD (extract_run env ztm).1.vehicles_data w).isSome
      = if w ∈ env.vehicles then true else false := by
  unfold extract_run
  rw [runLoop_vehdata]
  simp only [initState, lookupVD_map_default]
  by_cases hw : w ∈ env.vehicles <;> simp [hw]

theorem convertValue_ok {env : Env}
    (hconv : ∀ x mt u2, isOk (env.convert_measurement x mt u2) = true)
    (data : Option Val) (mt canon unit : String) :
    ∃ v, convertValue env data mt canon unit = Except.ok v := by
  match data with
  | none => exact ⟨none, rfl⟩
  | some x =>
    simp only [convertValue]
    split
    · cases hcm : env.convert_measurement x mt unit with
      | error e =>
        have hc := hconv x mt unit
        rw [hcm] at hc
        simp [isOk] at hc
      | ok y => exact ⟨some y, rfl⟩
    · exact ⟨some x, rfl⟩

theorem processROI_ok {env : Env} {ztm : Bool} {st : ExtractState} {roi : ROI}
    (hocr : ∀ sl mode, isOk (env.ocr_num sl mode) = true)
    (heng : ∀ pts, isOk (env.detect_engine_status pts) = true)
    (hconv : ∀ x mt u2, isOk (env.convert_measurement x mt u2) = true)
    (hveh : ∀ u, roi.vehicle = some u → u ∈ env.vehicles)
    (hkeys : ∀ w ∈ env.vehicles, (lookupVD st.vehicles_data w).isSome = true) :
    ∃ st2, processROI env ztm st roi = Except.ok st2 := by
  cases hres : processROI env ztm st roi with
  | ok st2 => exact ⟨st2, rfl⟩
  | error st2 =>
    exfalso
    simp only [processROI] at hres
    repeat' split at hres
    any_goals (cases hres; done)
    · obtain ⟨sl, mo, e, hx⟩ : ∃ sl mo e, env.ocr_num sl mo = Except.error e :=
        ⟨_, _, _, by assumption⟩
      have hcontra := hocr sl mo
      rw [hx] at hcontra
      simp [isOk] at hcontra
    · obtain ⟨d2, mt, cn, u2, e, hx⟩ :
          ∃ d2 mt cn u2 e, convertValue env d2 mt cn u2 = Except.error e :=
        ⟨_, _, _, _, _, by assumption⟩
      obtain ⟨v2, hv2⟩ := convertValue_ok hconv d2 mt cn u2
      rw [hv2] at hx
      cases hx
    · obtain ⟨u, f, hu, hx⟩ :
          ∃ u f, roi.vehicle = some u ∧ setField st.vehicles_data u f = none :=
        ⟨_, _, by assumption, by assumption⟩
      have hk := hkeys u (hveh u hu)
      rw [setField_eq_none.mp hx] at hk
      simp at hk
    · obtain ⟨sl, mo, e, hx⟩ : ∃ sl mo e, env.ocr_num sl mo = Except.error e :=
        ⟨_, _, _, by assumption⟩
      have hcontra := hocr sl mo
      rw [hx] at hcontra
      simp [isOk] at hcontra
    · obtain ⟨d2, mt, cn, u2, e, hx⟩ :
          ∃ d2 mt cn u2 e, convertValue env d2 mt cn u2 = Except.error e :=
        ⟨_, _, _, _, _, by assumption⟩
      obtain ⟨v2, hv2⟩ := convertValue_ok hconv d2 mt cn u2
      rw [hv2] at hx
      cases hx
    · obtain ⟨u, f, hu, hx⟩ :
          ∃ u f, roi.vehicle = some u ∧ setField st.vehicles_data u f = none :=
        ⟨_, _, by assumption, by assumption⟩
      have hk := hkeys u (hveh u hu)
      rw [setField_eq_none.mp hx] at hk
      simp at hk
    · obtain ⟨u, f, hu, hx⟩ :
          ∃ u f, roi.vehicle = some u ∧ setField st.vehicles_data u f = none :=
        ⟨_, _, by assumption, by assumption⟩
      have hk := hkeys u (hveh u hu)
      rw [setField_eq_none.mp hx] at hk
      simp at hk
    · obtain ⟨pts, e, hx⟩ : ∃ pts e, env.detect_engine_status pts = Except.error e :=
        ⟨_, _, by assumption⟩
      have hcontra := heng pts
      rw [hx] at hcontra
      simp [isOk] at hcontra
    · obtain ⟨u, f, hu, hx⟩ :
          ∃ u f, roi.vehicle = some u ∧ setField st.vehicles_data u f = none :=
        ⟨_, _, by assumption, by assumption⟩
      have hk := hkeys u (hveh u hu)
      rw [setField_eq_none.mp hx] at hk
      simp at hk

theorem runLoop_completes (env : Env) (ztm : Bool)
    (hocr : ∀ sl mode, isOk (env.ocr_num sl mode) = true)
    (heng : ∀ pts, isOk (env.detect_engine_status pts) = true)
    (hconv : ∀ x mt u2, isOk (env.convert_measurement x mt u2) = true) :
    ∀ (rois : List ROI) (st : ExtractState),
      (∀ roi ∈ rois, ∀ u, roi.vehicle = some u → u ∈ env.vehicles) →
      (∀ w ∈ env.vehicles, (lookupVD st.vehicles_data w).isSome = true) →
      (runLoop env ztm rois st).2 = true := by
  intro rois
  induction rois with
  | nil => intro st _ _; rfl
  | cons roi rest ih =>
    intro st hveh hkeys
    obtain ⟨st2, hp⟩ := processROI_ok hocr heng hconv (hveh roi (by simp)) hkeys
    simp only [runLoop]
    rw [hp]
    exact ih st2 (fun r hr u hu => hveh r (by simp [hr]) u hu)
      (fun w hw => by rw [processROI_vehdata hp w]; exact hkeys w hw)
theorem processROI_time_none {env : Env} {st st2 : ExtractState} {roi : ROI}
    (h : processROI env false st roi = Except.ok st2)
    (htime : ∀ sl rx, env.ocr_time sl rx = Except.error ())
    (hst : st.time_data = none) : st2.time_data = none := by
  simp only [processROI] at h
  repeat' split at h
  all_goals cases h
  all_goals try exact hst
  simp [extract_time_data, htime]

theorem runLoop_time_none (env : Env)
    (htime : ∀ sl rx, env.ocr_time sl rx = Except.error ()) :
    ∀ (rois : List ROI) (st : ExtractState), st.time_data = none →
      (runLoop env false rois st).1.time_data = none := by
  intro rois
  induction rois with
  | nil => intro st hst; exact hst
  | cons roi rest ih =>
    intro st hst
    simp only [runLoop]
    cases hp : processROI env false st roi with
    | ok st2 => exact ih st2 (processROI_time_none hp htime hst)
    | error st2 => rw [processROI_error_eq hp]; exact hst

theorem fuel_default_setField {m m2 : List (String × VehicleData)} {u : String}
    {f : VehicleData → VehicleData} (hs : setField m u f = some m2)
    (hpres : ∀ d, (f d).fuel = d.fuel)
    (hst : ∀ v vd, lookupVD m v = some vd → vd.fuel = defaultFuel) :
    ∀ v vd, lookupVD m2 v = some vd → vd.fuel = defaultFuel := by
  intro v vd hvd
  rw [lookupVD_setField hs v] at hvd
  split at hvd
  · cases hlk : lookupVD m u with
    | none => rw [hlk] at hvd; cases hvd
    | some d =>
      rw [hlk] at hvd
      injection hvd with h2
      rw [← h2, hpres d]
      exact hst u d hlk
  · exact hst v vd hvd

theorem processROI_fuel_default {env : Env} {ztm : Bool} {st st2 : ExtractState}
    {roi : ROI} (h : processROI env ztm st roi = Except.ok st2)
    (hfuel : ∀ n, env.extract_fuel_levels n = Except.error ())
    (hst : ∀ v vd, lookupVD st.vehicles_data v = some vd → vd.fuel = defaultFuel) :
    ∀ v vd, lookupVD st2.vehicles_data v = some vd → vd.fuel = defaultFuel := by
  simp only [processROI] at h
  repeat' split at h
  all_goals cases h
  all_goals try exact hst
  · rename_i m2 heq
    exact fuel_default_setField heq (fun d => rfl) hst
  · rename_i m2 heq
    exact fuel_default_setField heq (fun d => rfl) hst
  · rename_i m2 heq
    exact fuel_default_setField heq (fun d => rfl) hst
  · rename_i m2 heq
    exact fuel_default_setField heq (fun d => rfl) hst
  · rename_i fdat heqf ps vd2 hbc
    rw [hfuel] at heqf
    cases heqf
  · rename_i fdat heqf ps vd2 hbc
    rw [hfuel] at heqf
    cases heqf

theorem runLoop_fuel_default (env : Env) (ztm : Bool)
    (hfuel : ∀ n, env.extract_fuel_levels n = Except.error ()) :
    ∀ (rois : List ROI) (st : ExtractState),
      (∀ v vd, lookupVD st.vehicles_data v = some vd → vd.fuel = defaultFuel) →
      ∀ v vd, lookupVD (runLoop env ztm rois st).1.vehicles_data v = some vd →
        vd.fuel = defaultFuel := by
  intro rois
  induction rois with
  | nil => intro st hst; exact hst
  | cons roi rest ih =>
    intro st hst
    simp only [runLoop]
    cases hp : processROI env ztm st roi with
    | ok st2 => exact ih st2 (processROI_fuel_default hp hfuel hst)
    | error st2 => rw [processROI_error_eq hp]; exact hst

/-- A rectangular ROI covering `[0,10)×[0,10)` with the given id and owning vehicle. -/
def mkROI (id : String) (veh : Option String) (unit : String) : ROI :=
  ⟨id, veh, 0, 0, 10, 10, [], unit⟩

/-- Concrete scenario for claim C1: the numeric OCR raises on a speed ROI while an
altitude ROI for the same vehicle is still pending. -/
def env1 : Env :=
  { vehicles := ["a"]
    active_rois := [mkROI "speed" (some "a") "km/h", mkROI "altitude" (some "a") "km"]
    ih := 100
    iw := 100
    ocr_num := fun _ _ => Except.error ()
    ocr_time := fun _ _ => Except.ok none
    detect_engine_status := fun _ => Except.ok []
    extract_fuel_levels := fun _ => Except.ok []
    convert_measurement := fun x _ _ => Except.ok x }

/-- Claim C1, counterexample.  The claim says any decoder exception for one ROI is
caught and the remaining active ROIs are still processed, returning a complete Frame
Telemetry Record.  In `env1` the numeric OCR raises on the first (speed) ROI of the
frame: `extract_data` propagates the exception and aborts — no record is returned and
the remaining altitude ROI is never processed — because in the source only the time
OCR and the fuel branch are wrapped in `try/except`. -/
theorem claim1_counterexample : extract_data env1 false = Except.error () := by rfl

/-- Claim C1 (amended): exceptions raised by the time OCR or by the fuel-level
detector are caught — the time field is recorded as the empty value and the fuel
fields keep their zero defaults — and extraction of the remaining ROIs continues,
returning a complete record; but this holds only provided the numeric OCR
(speed/altitude), the engine detector and the measurement-unit conversion of a
successfully read value do not raise: their exceptions propagate out of
`extract_data` and abort the frame.  Formally: whenever those three never raise
(and every vehicle-owning active ROI references a configured vehicle),
`extract_data` returns a record, with no assumption at all on the time OCR or the
fuel detector; moreover if the time OCR always raises the returned record's time is
empty, and if the fuel detector always raises every vehicle's fuel entry is the
zero default. -/
theorem claim1_amended (env : Env) (ztm : Bool)
    (hocr : ∀ sl mode, isOk (env.ocr_num sl mode) = true)
    (heng : ∀ pts, isOk (env.detect_engine_status pts) = true)
    (hconv : ∀ x mt u2, isOk (env.convert_measurement x mt u2) = true)
    (hveh : ∀ roi ∈ env.active_rois, ∀ u, roi.vehicle = some u → u ∈ env.vehicles) :
    (∃ r, extract_data env ztm = Except.ok r)
    ∧ (ztm = false → (∀ sl rx, env.ocr_time sl rx = Except.error ()) →
        ∀ r, extract_data env ztm = Except.ok r → r.time = none)
    ∧ ((∀ n, env.extract_fuel_levels n = Except.error ()) →
        ∀ r, extract_data env ztm = Except.ok r →
          ∀ v vd, lookupVD r.vehicles v = some vd → vd.fuel = defaultFuel) := by
  refine ⟨?_, ?_, ?_⟩
  · have hcomp : (extract_run env ztm).2 = true :=
      runLoop_completes env ztm hocr heng hconv env.active_rois (initState env) hveh
        (fun w hw => by simp [initState, lookupVD_map_default, hw])
    unfold extract_data
    rcases hrun : extract_run env ztm with ⟨st, b⟩
    rw [hrun] at hcomp
    simp only at hcomp
    subst hcomp
    exact ⟨_, rfl⟩
  · intro hz htime r hr
    subst hz
    have h5 : (extract_run env false).1.time_data = none :=
      runLoop_time_none env htime env.active_rois (initState env) rfl
    unfold extract_data at hr
    rcases hrun : extract_run env false with ⟨st, b⟩
    rw [hrun] at hr h5
    cases b
    · cases hr
    · injection hr with hr2
      rw [← hr2]
      exact h5
  · intro hfuel r hr
    have hst0 : ∀ v vd, lookupVD (initState env).vehicles_data v = some vd →
        vd.fuel = defaultFuel := by
      intro v vd hvd
      simp only [initState] at hvd
      rw [lookupVD_map_default] at hvd
      split at hvd
      · injection hvd with h2
        rw [← h2]
        rfl
      · cases hvd
    have h5 := runLoop_fuel_default env ztm hfuel env.active_rois (initState env) hst0
    unfold extract_data at hr
    rcases hrun : extract_run env ztm with ⟨st, b⟩
    have h6 : ∀ v vd, lookupVD st.vehicles_data v = some vd → vd.fuel = defaultFuel := by
      intro v vd hvd
      apply h5 v vd
      show lookupVD (extract_run env ztm).1.vehicles_data v = some vd
      rw [hrun]
      exact hvd
    rw [hrun] at hr
    cases b
    · cases hr
    · injection hr with hr2
      rw [← hr2]
      exact h6

/-- Scenario for the C1 witness: the time OCR and the fuel detector both always
raise; the numeric OCR and engine detector never do. -/
def env1w : Env :=
  { vehicles := ["a"]
    active_rois := [mkROI "time" none "rx", mkROI "fuel" (some "a") ""]
    ih := 100
    iw := 100
    ocr_num := fun _ _ => Except.ok none
    ocr_time := fun _ _ => Except.error ()
    detect_engine_status := fun _ => Except.ok []
    extract_fuel_levels := fun _ => Except.error ()
    convert_measurement := fun x _ _ => Except.ok x }

theorem claim1_witness :
    isOk (extract_data env1w false) = true
    ∧ (extract_data env1w false).map Record.time = Except.ok none := by
  obtain ⟨⟨r, hr⟩, h2, h3⟩ := claim1_amended env1w false (fun _ _ => rfl) (fun _ => rfl)
    (fun _ _ _ => rfl)
    (by intro roi hroi u hu
        simp only [env1w, mkROI, List.mem_cons, List.not_mem_nil, or_false] at hroi
        rcases hroi with h | h <;> subst h <;> simp_all [env1w])
  have ht := h2 rfl (fun _ _ => rfl) r hr
  rw [hr]
  refine ⟨rfl, ?_⟩
  show Except.ok r.time = Except.ok none
  rw [ht]

/-- Concrete scenario for claim C3: two fuel ROIs are active the same frame and the
fuel detector raises on its first invocation and succeeds on the second. -/
def env3 : Env :=
  { vehicles := ["a"]
    active_rois := [mkROI "fuel" (some "a") "", mkROI "fuel" (some "a") ""]
    ih := 100
    iw := 100
    ocr_num := fun _ _ => Except.ok none
    ocr_time := fun _ _ => Except.ok none
    detect_engine_status := fun _ => Except.ok []
    extract_fuel_levels := fun n => if n = 0 then Except.error () else Except.ok []
    convert_measurement := fun x _ _ => Except.ok x }

/-- Claim C3, counterexample.  The claim says the fuel detector is invoked at most
once per `extract_data` call *including when the first invocation raises and further
fuel ROIs remain active*.  In `env3` the first invocation raises, so
`fuel_extracted` is never latched and the second fuel ROI invokes the detector
again: two invocations in a single call. -/
theorem claim3_counterexample : (extract_run env3 false).1.fuelCalls = 2 := by rfl

/-- Claim C3 (amended): the fuel detector is invoked at most once per `extract_data`
call provided its (first) invocation does not raise; only a raising invocation —
which does not latch `fuel_extracted` — can make a later active fuel ROI invoke it
again. -/
theorem claim3_amended (env : Env) (ztm : Bool)
    (h0 : isOk (env.extract_fuel_levels 0) = true) :
    (extract_run env ztm).1.fuelCalls ≤ 1 := by
  apply runLoop_fuel_le env ztm h0 env.active_rois (initState env)
  · intro w hw
    simp [initState, lookupVD_map_default, hw]
  · exact Nat.zero_le 1
  · intro _; rfl

/-- Scenario for the C3 witness: three vehicles each declare an active fuel ROI and
the (mocked) fuel detector never raises. -/
def env3w : Env :=
  { vehicles := ["a", "b", "c"]
    active_rois := [mkROI "fuel" (some "a") "", mkROI "fuel" (some "b") "",
                    mkROI "fuel" (some "c") ""]
    ih := 100
    iw := 100
    ocr_num := fun _ _ => Except.ok none
    ocr_time := fun _ _ => Except.ok none
    detect_engine_status := fun _ => Except.ok []
    extract_fuel_levels := fun _ => Except.ok []
    convert_measurement := fun x _ _ => Except.ok x }

theorem claim3_witness : (extract_run env3w false).1.fuelCalls ≤ 1 :=
  claim3_amended env3w false rfl

/-- Claim C6: the record returned by `extract_data` contains an entry under
`vehicles` for every vehicle declared in the configuration, and on a frame with
zero active ROIs every vehicle is bound to the null/zero defaults
(`speed=None, altitude=None, fuel={lox:{fullness:0},ch4:{fullness:0}}, engines={}`). -/
theorem claim6 (env : Env) (ztm : Bool) :
    (∀ r, extract_data env ztm = Except.ok r →
       ∀ v ∈ env.vehicles, (lookupVD r.vehicles v).isSome = true)
    ∧ (env.active_rois = [] →
       extract_data env ztm
         = Except.ok ⟨env.vehicles.map (fun v => (v, defaultVehicleData)), none⟩) := by
  constructor
  · intro r hr v hv
    unfold extract_data at hr
    rcases hrun : extract_run env ztm with ⟨st, b⟩
    rw [hrun] at hr
    cases b
    · cases hr
    · injection hr with hr2
      have hlk := extract_run_vehdata env ztm v
      rw [hrun] at hlk
      rw [← hr2]
      simp only at hlk
      rw [hlk, if_pos hv]
  · intro h
    simp [extract_data, extract_run, h, runLoop, initState]

/-- Scenario for the C6 witness: two configured vehicles, no active ROIs. -/
def env6w : Env :=
  { vehicles := ["a", "b"]
    active_rois := []
    ih := 100
    iw := 100
    ocr_num := fun _ _ => Except.ok none
    ocr_time := fun _ _ => Except.ok none
    detect_engine_status := fun _ => Except.ok []
    extract_fuel_levels := fun _ => Except.ok []
    convert_measurement := fun x _ _ => Except.ok x }

theorem claim6_witness :
    extract_data env6w false
      = Except.ok ⟨[("a", defaultVehicleData), ("b", defaultVehicleData)], none⟩ :=
  (claim6 env6w false).2 rfl

/-- Claim C10: when a fuel ROI is active (non-empty slice, fuel not yet extracted
this frame) and the fuel detector returns successfully with a mapping that lacks an
entry for some configured vehicle `v`, the step sets `v`'s fuel field to the zero
default `{lox:{fullness:0}, ch4:{fullness:0}}` and overwrites nothing else of `v`'s
record (speed, altitude and engines are untouched), rather than omitting the key or
failing. -/
theorem claim10 (env : Env) (ztm : Bool) (st : ExtractState) (roi : ROI)
    (u v : String) (fuel_data : List (String × FuelData))
    (hid : roi.id = "fuel") (hu : roi.vehicle = some u) (hune : u ≠ "")
    (hfe : st.fuel_extracted = false)
    (hok : env.extract_fuel_levels st.fuelCalls = Except.ok fuel_data)
    (hnd : env.vehicles.Nodup)
    (hkeys : ∀ w ∈ env.vehicles, (lookupVD st.vehicles_data w).isSome = true)
    (hv : v ∈ env.vehicles)
    (hmiss : lookupFuel fuel_data v = none)
    (sl : Slice)
    (hsl : slice_roi env.ih env.iw roi.y roi.h roi.x roi.w = some sl) :
    ∃ st2, processROI env ztm st roi = Except.ok st2 ∧
      lookupVD st2.vehicles_data v
        = (lookupVD st.vehicles_data v).map (fun d => { d with fuel := defaultFuel }) := by
  have hb2 := broadcastFuel_complete fuel_data env.vehicles st.vehicles_data hkeys
  have hbl := broadcastFuel_lookup fuel_data env.vehicles st.vehicles_data hnd hkeys v
  rcases hbc : broadcastFuel st.vehicles_data env.vehicles fuel_data with ⟨vd, b⟩
  rw [hbc] at hb2 hbl
  simp only at hb2
  subst hb2
  have hP : processROI env ztm st roi
      = Except.ok { st with vehicles_data := vd, fuel_extracted := true,
                            fuelCalls := st.fuelCalls + 1 } := by
    simp [processROI, hsl, hid, hu, hune, hfe, hok, hbc]
  refine ⟨_, hP, ?_⟩
  show lookupVD vd v = _
  rw [hbl, if_pos hv, hmiss]
  rfl

/-- Scenario for the C10 witness: two configured vehicles; the fuel detector
succeeds but its mapping lacks vehicle `"b"`. -/
def env10 : Env :=
  { vehicles := ["a", "b"]
    active_rois := [mkROI "fuel" (some "a") ""]
    ih := 100
    iw := 100
    ocr_num := fun _ _ => Except.ok none
    ocr_time := fun _ _ => Except.ok none
    detect_engine_status := fun _ => Except.ok []
    extract_fuel_levels := fun _ => Except.ok [("a", ⟨⟨50⟩, ⟨60⟩⟩)]
    convert_measurement := fun x _ _ => Except.ok x }

theorem claim10_witness :
    (processROI env10 false (initState env10) (mkROI "fuel" (some "a") "")).map
        (fun st2 => lookupVD st2.vehicles_data "b")
      = Except.ok ((lookupVD (initState env10).vehicles_data "b").map
          (fun d => { d with fuel := defaultFuel })) := by
  obtain ⟨st2, hok2, hlook⟩ := claim10 env10 false (initState env10)
    (mkROI "fuel" (some "a") "") "a" "b" [("a", ⟨⟨50⟩, ⟨60⟩⟩)] rfl rfl (by decide)
    rfl rfl (by decide) (by decide) (by decide) rfl (0, 10, 0, 10) rfl
  rw [hok2]
  show Except.ok (lookupVD st2.vehicles_data "b") = _
  rw [hlook]
end Extract

namespace Plot

/-- A cell of the time series: a numeric value or a null/NaN (Python float, with the
claims' exact integral logic embedded over `Int`; `none` is pandas NaN/None). -/
abbrev Cell := Option Int

/-- One column of the table. -/
abbrev Col := List Cell

/-- The assembled time-series table, keyed by dot-qualified column names in order. -/
structure DF where
  cols : List (String × Col)
  deriving DecidableEq

/-- `df.columns`. -/
def DF.columns (df : DF) : List String := df.cols.map Prod.fst

def lookupCol : List (String × Col) → String → Option Col
  | [], _ => none
  | (k, c) :: rest, u => if u = k then some c else lookupCol rest u

/-- `col in df.columns`. -/
def DF.hasCol (df : DF) (u : String) : Bool := (lookupCol df.cols u).isSome

/-- Column assignment `df[u] = x`: replace in place when present, append when new. -/
def setColList : List (String × Col) → String → Col → List (String × Col)
  | [], u, x => [(u, x)]
  | (k, c) :: rest, u, x =>
    if u = k then (k, x) :: rest
    else (k, c) :: setColList rest u x

def DF.setCol (df : DF) (u : String) (x : Col) : DF := ⟨setColList df.cols u x⟩

/-- `df[u]` (the empty column when absent; used only under presence checks). -/
def DF.getCol (df : DF) (u : String) : Col := (lookupCol df.cols u).getD []

/-- `len(df)` (the length of the leading column; all columns of a pandas frame
share one row index). -/
def DF.nrows (df : DF) : Nat :=
  match df.cols with
  | [] => 0
  | (_, c) :: _ => c.length

/-- `df.at[idx, u]` / `row[u]` read. -/
def DF.getCell (df : DF) (idx : Nat) (u : String) : Cell := (df.getCol u).getD idx none

/-- `df.at[idx, u] = x` write. -/
def DF.setCell (df : DF) (u : String) (idx : Nat) (x : Cell) : DF :=
  df.setCol u ((df.getCol u).set idx x)

/-- Python `col.split('.')` on the underlying character list. -/
def splitDotChars : List Char → List (List Char)
  | [] => [[]]
  | c :: rest =>
    match splitDotChars rest with
    | [] => [[]]
    | g :: gs => if c = '.' then [] :: g :: gs else (c :: g) :: gs

/-- Python `col.split('.')` (observationally `String.splitOn "."`, defined by
structural recursion on the characters so that it evaluates in the kernel). -/
def splitOnDot (s : String) : List String := (splitDotChars s.data).map (fun l => ⟨l⟩)

/-- Python string `<` (code-point lexicographic). -/
def lexLt : List Char → List Char → Bool
  | [], [] => false
  | [], _ :: _ => true
  | _ :: _, [] => false
  | a :: as, b :: bs => if a = b then lexLt as bs else decide (a < b)

def strLt (s t : String) : Bool := lexLt s.data t.data

def insertSorted (x : String) : List String → List String
  | [] => [x]
  | y :: ys => if strLt x y then x :: y :: ys else y :: insertSorted x ys

/-- Python `sorted` on a list of distinct strings (insertion sort by `strLt`). -/
def sortStrings : List String → List String
  | [] => []
  | x :: xs => insertSorted x (sortStrings xs)

/-- The per-column test of the scan in `detect_vehicles` (`plot/data_processing.py`).
In the source the scan body is guarded by `'.' in col`, which holds exactly when the
split has at least two parts, so the guard is folded into the length test; the
redundant `elif` branch of the source (a subset of the first condition) is kept. -/
def isVehicleDataCol (col : String) : Bool :=
  let parts := splitOnDot col
  if 2 ≤ parts.length ∧ parts.getD 1 "" ∈ ["speed", "altitude", "fuel", "engines"] then
    true
  else if 3 ≤ parts.length ∧ (parts.getD 1 "" ∈ ["fuel", "engines"] ∨
      (parts.getD 1 "" = "fuel" ∧ parts.getD 2 "" ∈ ["lox", "ch4"])) then
    true
  else false

def non_vehicle_prefixes : List String := ["real_time", "time", "frame_number", "fuel"]

/-- `detect_vehicles` from `plot/data_processing.py`: collect the prefixes of
matching columns into a set, sort, then drop the known non-vehicle prefixes. -/
def detect_vehicles (df : DF) : List String :=
  let vehicles := (df.columns.filter (fun col => isVehicleDataCol col)).map
    (fun col => (splitOnDot col).headD "")
  (sortStrings vehicles.dedup).filter (fun v => decide (v ∉ non_vehicle_prefixes))

/-- `change_thresholds = {'speed': 50, 'altitude': 1}` (accessed only at those keys). -/
def change_thresholds (data_type : String) : Int :=
  if data_type = "speed" then 50 else 1

/-- `df[col].diff().abs()`: first entry NaN, entry `i` is `|x[i] - x[i-1]|`, NaN when
either neighbour is NaN. -/
def diffAbs (xs : Col) : Col :=
  (List.range xs.length).map (fun i =>
    if i = 0 then none
    else
      match xs.getD (i - 1) none, xs.getD i none with
      | some a, some b => some (iabs (b - a))
      | _, _ => none)

/-- `df.loc[df[diff_col] > threshold, col_name] = None` (a NaN difference never
exceeds the threshold in pandas). -/
def maskOutliers (threshold : Int) (xs d : Col) : Col :=
  List.zipWith (fun x dd =>
    match dd with
    | some q => if threshold < q then none else x
    | none => x) xs d

/-- The per-(vehicle, data_type) body of Step 3 of `clean_dataframe`
(`plot/data_cleaning.py`): store the absolute diff as `<v>.<dt>_diff`, then null the
samples whose diff exceeds the threshold. -/
def cleanColPass (df : DF) (vehicle data_type : String) : DF :=
  let col_name := vehicle ++ "." ++ data_type
  if df.hasCol col_name then
    let diff_col := vehicle ++ "." ++ data_type ++ "_diff"
    let df1 := df.setCol diff_col (diffAbs (df.getCol col_name))
    let threshold := change_thresholds data_type
    df1.setCol col_name (maskOutliers threshold (df1.getCol col_name) (df1.getCol diff_col))
  else df

/-- `clean_dataframe` from `plot/data_cleaning.py`.  Step 1
(`pd.to_numeric(..., errors='coerce')`) is the identity in this model — cells are
already numeric-or-null — and its `vehicle_columns` list only feeds a debug log. -/
def clean_dataframe (df : DF) : DF :=
  let vehicles := detect_vehicles df
  vehicles.foldl (fun acc v =>
    ["speed", "altitude"].foldl (fun acc2 dt => cleanColPass acc2 v dt) acc) df

/-- The canonical fuel column name `<vehicle>.fuel.<fuel_type>.fullness`. -/
def fullnessCol (vehicle fuel_type : String) : String :=
  vehicle ++ ".fuel." ++ fuel_type ++ ".fullness"

/-- The alternate historical naming patterns searched by
`prepare_fuel_data_columns`, in order. -/
def possible_names (vehicle fuel_type : String) : List String :=
  [vehicle ++ ".fuel." ++ fuel_type ++ ".fullness",
   vehicle ++ "_fuel_" ++ fuel_type ++ "_fullness",
   vehicle ++ "." ++ fuel_type ++ "_fullness",
   vehicle ++ "_" ++ fuel_type ++ "_fullness"]

/-- `prepare_fuel_data_columns` from `plot/fuel_processing.py`.  `df[c] = 0`
broadcasts the scalar over the row index, hence the `replicate` of zeros. -/
def prepare_fuel_data_columns (df : DF) : DF :=
  let vehicles := detect_vehicles df
  let fuel_columns_exist := vehicles.any (fun v => df.hasCol (fullnessCol v "lox"))
  if fuel_columns_exist then df
  else
    vehicles.foldl (fun acc v =>
      ["lox", "ch4"].foldl (fun acc2 ft =>
        match (possible_names v ft).find? (fun c => acc2.hasCol c) with
        | some c => acc2.setCol (fullnessCol v ft) (acc2.getCol c)
        | none => acc2.setCol (fullnessCol v ft) (List.replicate acc2.nrows (some 0)))
        acc) df

/-- The `required_cols` list of `normalize_fuel_levels`. -/
def requiredCols (df : DF) : List String :=
  "real_time_seconds" ::
    (detect_vehicles df).flatMap (fun v => [fullnessCol v "lox", fullnessCol v "ch4"])

/-- The reconciled value: `max` before 200 s, `min` at or after (pandas `NaN < 200`
is `False`, so a NaN time takes the `min` branch). -/
def reconcile (t : Cell) (lox ch4 : Int) : Int :=
  match t with
  | some tt => if tt < 200 then imax lox ch4 else imin lox ch4
  | none => imin lox ch4

/-- The per-vehicle body of the row loop of `normalize_fuel_levels`; `row` is the
`iterrows` snapshot of the current row (reads are from the snapshot, writes go to
the accumulated frame).  A NaN reading never satisfies `abs(lox - ch4) > 30`. -/
def normalizeVehicleRow (row : String → Cell) (t : Cell) (idx : Nat) (acc : DF)
    (v : String) : DF :=
  match row (fullnessCol v "lox"), row (fullnessCol v "ch4") with
  | some lox, some ch4 =>
    if 30 < iabs (lox - ch4) then
      let chosen := reconcile t lox ch4
      (acc.setCell (fullnessCol v "lox") idx (some chosen)).setCell
        (fullnessCol v "ch4") idx (some chosen)
    else acc
  | _, _ => acc

/-- One `iterrows` iteration of `normalize_fuel_levels`. -/
def normalizeRow (vehicles : List String) (df : DF) (idx : Nat) : DF :=
  let row := fun c => df.getCell idx c
  let t := row "real_time_seconds"
  vehicles.foldl (normalizeVehicleRow row t idx) df

/-- `normalize_fuel_levels` from `plot/fuel_processing.py`: skipped wholesale when
any required column is missing. -/
def normalize_fuel_levels (df : DF) : DF :=
  let vehicles := detect_vehicles df
  let missing := (requiredCols df).filter (fun c => ! df.hasCol c)
  if missing.isEmpty then (List.range df.nrows).foldl (normalizeRow vehicles) df
  else df

theorem str_append_inj {v w s t : String} (hlen : s.data.length = t.data.length)
    (h : v ++ s = w ++ t) : v = w ∧ s = t := by
  have hd : v.data ++ s.data = w.data ++ t.data := by
    rw [← String.data_append, ← String.data_append, h]
  obtain ⟨h1, h2⟩ := List.append_inj' hd hlen
  exact ⟨String.ext h1, String.ext h2⟩

theorem append_ne_left {v w : String} (s : String) (hvw : v ≠ w) : v ++ s ≠ w ++ s :=
  fun h => hvw (str_append_inj rfl h).1

theorem append_ne_rev {s t : String} (k : Nat)
    (hk1 : k < s.data.length) (hk2 : k < t.data.length)
    (hne : s.data.reverse.getD k 'a' ≠ t.data.reverse.getD k 'a')
    (v w : String) : v ++ s ≠ w ++ t := by
  intro h
  apply hne
  have hd : s.data.reverse ++ v.data.reverse = t.data.reverse ++ w.data.reverse := by
    have h2 : (v ++ s).data.reverse = (w ++ t).data.reverse := by rw [h]
    rw [String.data_append, String.data_append, List.reverse_append,
        List.reverse_append] at h2
    exact h2
  have e1 := List.getD_append s.data.reverse v.data.reverse 'a' k
    (by rw [List.length_reverse]; exact hk1)
  have e2 := List.getD_append t.data.reverse w.data.reverse 'a' k
    (by rw [List.length_reverse]; exact hk2)
  rw [← e1, ← e2, hd]

theorem ne_speed_alt (v w : String) : v ++ ".speed" ≠ w ++ ".altitude" :=
  append_ne_rev 0 (by decide) (by decide) (by decide) v w

theorem ne_speed_spdiff (v w : String) : v ++ ".speed" ≠ w ++ ".speed_diff" :=
  append_ne_rev 0 (by decide) (by decide) (by decide) v w

theorem ne_speed_altdiff (v w : String) : v ++ ".speed" ≠ w ++ ".altitude_diff" :=
  append_ne_rev 0 (by decide) (by decide) (by decide) v w

theorem ne_alt_spdiff (v w : String) : v ++ ".altitude" ≠ w ++ ".speed_diff" :=
  append_ne_rev 0 (by decide) (by decide) (by decide) v w

theorem ne_alt_altdiff (v w : String) : v ++ ".altitude" ≠ w ++ ".altitude_diff" :=
  append_ne_rev 0 (by decide) (by decide) (by decide) v w

theorem ne_spdiff_altdiff (v w : String) : v ++ ".speed_diff" ≠ w ++ ".altitude_diff" :=
  append_ne_rev 5 (by decide) (by decide) (by decide) v w

theorem ne_lox_ch4 (v w : String) :
    v ++ ".fuel.lox.fullness" ≠ w ++ ".fuel.ch4.fullness" :=
  append_ne_rev 9 (by decide) (by decide) (by decide) v w

theorem lookupCol_setColList (m : List (String × Col)) (u : String) (x : Col) (w : String) :
    lookupCol (setColList m u x) w = if w = u then some x else lookupCol m w := by
  induction m with
  | nil => by_cases hw : w = u <;> simp [setColList, lookupCol, hw]
  | cons kc rest ih =>
    obtain ⟨k, c⟩ := kc
    by_cases hu : u = k
    · subst hu
      by_cases hw : w = u <;> simp [setColList, lookupCol, hw]
    · simp only [setColList, if_neg hu]
      by_cases hw : w = k
      · subst hw
        have hwu : ¬ w = u := fun hc => hu hc.symm
        simp [lookupCol, hwu]
      · simp [lookupCol, hw, ih]

theorem getCol_setCol_self (df : DF) (u : String) (x : Col) :
    (df.setCol u x).getCol u = x := by
  simp [DF.getCol, DF.setCol, lookupCol_setColList]

theorem getCol_setCol_ne (df : DF) (u : String) (x : Col) (w : String) (h : w ≠ u) :
    (df.setCol u x).getCol w = df.getCol w := by
  simp [DF.getCol, DF.setCol, lookupCol_setColList, h]

theorem hasCol_setCol (df : DF) (u : String) (x : Col) (w : String) :
    (df.setCol u x).hasCol w = (if w = u then true else df.hasCol w) := by
  by_cases hw : w = u <;>
    simp [DF.hasCol, DF.setCol, lookupCol_setColList, hw]

theorem hasCol_setCol_mono (df : DF) (u : String) (x : Col) (w : String)
    (h : df.hasCol w = true) : (df.setCol u x).hasCol w = true := by
  rw [hasCol_setCol]
  by_cases hw : w = u <;> simp [hw, h]

theorem getCell_setCell_ne_col (df : DF) (u : String) (x : Cell) (idx j : Nat)
    (w : String) (h : w ≠ u) : (df.setCell u idx x).getCell j w = df.getCell j w := by
  simp [DF.getCell, DF.setCell, getCol_setCol_ne _ _ _ _ h]

theorem getCell_setCell_ne_row (df : DF) (u : String) (x : Cell) (idx j : Nat)
    (w : String) (h : j ≠ idx) : (df.setCell u idx x).getCell j w = df.getCell j w := by
  by_cases hw : w = u
  · subst hw
    simp [DF.getCell, DF.setCell, getCol_setCol_self, List.getD_eq_getElem?_getD,
          List.getElem?_set_ne (fun hc => h hc.symm)]
  · exact getCell_setCell_ne_col df u x idx j w hw

theorem getCell_setCell_self (df : DF) (u : String) (x : Cell) (idx : Nat)
    (hidx : idx < (df.getCol u).length) : (df.setCell u idx x).getCell idx u = x := by
  simp [DF.getCell, DF.setCell, getCol_setCol_self, List.getD_eq_getElem?_getD,
        List.getElem?_set_self hidx]

theorem getCell_lt_length {df : DF} {idx : Nat} {u : String} {x : Int}
    (h : df.getCell idx u = some x) : idx < (df.getCol u).length := by
  by_contra hge
  rw [DF.getCell, List.getD_eq_getElem?_getD,
      List.getElem?_eq_none (by omega)] at h
  cases h
theorem insertSorted_perm (x : String) (l : List String) :
    (insertSorted x l).Perm (x :: l) := by
  induction l with
  | nil => exact List.Perm.refl _
  | cons y ys ih =>
    simp only [insertSorted]
    split
    · exact List.Perm.refl _
    · exact (List.Perm.cons y ih).trans (List.Perm.swap x y ys)

theorem sortStrings_perm (l : List String) : (sortStrings l).Perm l := by
  induction l with
  | nil => exact List.Perm.refl _
  | cons x xs ih =>
    simp only [sortStrings]
    exact (insertSorted_perm x (sortStrings xs)).trans (List.Perm.cons x ih)

theorem detect_vehicles_nodup (df : DF) : (detect_vehicles df).Nodup := by
  simp only [detect_vehicles]
  exact List.Nodup.filter _
    (((sortStrings_perm _).nodup_iff).mpr (List.nodup_dedup _))

theorem mem_detect_vehicles (df : DF) (p : String) :
    p ∈ detect_vehicles df ↔
      (p ∉ non_vehicle_prefixes ∧
       ∃ col ∈ df.columns, isVehicleDataCol col = true ∧ (splitOnDot col).headD "" = p) := by
  simp only [detect_vehicles]
  rw [List.mem_filter, (sortStrings_perm _).mem_iff, List.mem_dedup, List.mem_map]
  constructor
  · rintro ⟨⟨col, hcol, hp⟩, hd⟩
    rw [List.mem_filter] at hcol
    exact ⟨by simpa using hd, col, hcol.1, hcol.2, hp⟩
  · rintro ⟨hnp, col, hcol, hvdc, hp⟩
    exact ⟨⟨col, List.mem_filter.mpr ⟨hcol, hvdc⟩, hp⟩, by simpa using hnp⟩

theorem isVehicleDataCol_iff (col : String) :
    isVehicleDataCol col = true ↔
      2 ≤ (splitOnDot col).length ∧
      (splitOnDot col).getD 1 "" ∈ ["speed", "altitude", "fuel", "engines"] := by
  simp only [isVehicleDataCol]
  split
  next h => exact iff_of_true rfl h
  next h =>
    split
    next h2 =>
      exfalso
      apply h
      obtain ⟨hlen, hdisj⟩ := h2
      refine ⟨by omega, ?_⟩
      rcases hdisj with hin | ⟨hfuel, _⟩
      · simp only [List.mem_cons, List.not_mem_nil, or_false] at hin
        rcases hin with h3 | h3 <;> rw [h3] <;> decide
      · rw [hfuel]; decide
    next h2 => exact iff_of_false (by simp) h

theorem isVehicleDataCol_head (col p : String) :
    (isVehicleDataCol col = true ∧ (splitOnDot col).headD "" = p) ↔
      ∃ rest, splitOnDot col = p :: rest ∧ rest ≠ [] ∧
        rest.headD "" ∈ ["speed", "altitude", "fuel", "engines"] := by
  rw [isVehicleDataCol_iff]
  cases hsp : splitOnDot col with
  | nil =>
    constructor
    · rintro ⟨⟨hlen, _⟩, _⟩; simp at hlen
    · rintro ⟨rest, hr, _, _⟩; cases hr
  | cons q rest =>
    cases rest with
    | nil =>
      constructor
      · rintro ⟨⟨hlen, _⟩, _⟩; simp at hlen
      · rintro ⟨rest2, hr, hne, _⟩
        injection hr with h1 h2
        exact absurd h2.symm hne
    | cons r rs =>
      constructor
      · rintro ⟨⟨_, hmem⟩, hhead⟩
        simp only [List.headD_cons] at hhead
        subst hhead
        exact ⟨r :: rs, rfl, by simp, by simpa using hmem⟩
      · rintro ⟨rest2, hr, _, hmem⟩
        injection hr with h1 h2
        subst h1
        subst h2
        exact ⟨⟨by simp, by simpa using hmem⟩, by simp⟩

/-- Claim C5: `detect_vehicles` returns exactly the set of column-name prefixes
before the first `.` that have a (sibling) column whose remainder is `speed`,
`altitude`, or lies under `fuel` or `engines` (the spec patterns `fuel.*` /
`engines.*`, read as "the head segment of the remainder is `fuel` / `engines`"),
minus the fixed non-vehicle prefixes `real_time`, `time`, `frame_number`, `fuel`;
and on the spec's example table it returns exactly `["starship", "superheavy"]`. -/
theorem claim5 :
    (∀ (df : DF) (p : String),
      p ∈ detect_vehicles df ↔
        (p ∉ non_vehicle_prefixes ∧
         ∃ col ∈ df.columns, ∃ rest, splitOnDot col = p :: rest ∧ rest ≠ [] ∧
           rest.headD "" ∈ ["speed", "altitude", "fuel", "engines"]))
    ∧ detect_vehicles ⟨[("starship.speed", []), ("starship.altitude", []),
        ("superheavy.fuel.lox.fullness", []), ("real_time_seconds", [])]⟩
      = ["starship", "superheavy"] := by
  constructor
  · intro df p
    rw [mem_detect_vehicles]
    apply and_congr_right
    intro _
    constructor
    · rintro ⟨col, hcol, hprop⟩
      exact ⟨col, hcol, (isVehicleDataCol_head col p).mp hprop⟩
    · rintro ⟨col, hcol, hprop⟩
      exact ⟨col, hcol, (isVehicleDataCol_head col p).mpr hprop⟩
  · decide

theorem claim5_witness :
    "starship" ∈ detect_vehicles ⟨[("starship.speed", []), ("starship.altitude", []),
        ("superheavy.fuel.lox.fullness", []), ("real_time_seconds", [])]⟩ :=
  (claim5.1 ⟨[("starship.speed", []), ("starship.altitude", []),
      ("superheavy.fuel.lox.fullness", []), ("real_time_seconds", [])]⟩ "starship").mpr
    ⟨by decide, "starship.speed", by decide, ["speed"], by decide, by decide, by decide⟩
theorem str_ne_append {a b : String} (hb : b.data.length ≠ 0) : a ≠ a ++ b := by
  intro h
  have hdata : a.data = a.data ++ b.data := by rw [← String.data_append, ← h]
  have hl := congrArg List.length hdata
  rw [List.length_append] at hl
  omega

theorem mcol_speed (v : String) : v ++ "." ++ "speed" = v ++ ".speed" := by
  rw [String.append_assoc]
  exact rfl

theorem mcol_alt (v : String) : v ++ "." ++ "altitude" = v ++ ".altitude" := by
  rw [String.append_assoc]
  exact rfl

theorem dcol_speed (v : String) : v ++ "." ++ "speed" ++ "_diff" = v ++ ".speed_diff" := by
  rw [String.append_assoc (v ++ "."), String.append_assoc v]
  exact rfl

theorem dcol_alt (v : String) :
    v ++ "." ++ "altitude" ++ "_diff" = v ++ ".altitude_diff" := by
  rw [String.append_assoc (v ++ "."), String.append_assoc v]
  exact rfl

theorem cleanColPass_getCol_ne (df : DF) (w dt2 c : String)
    (h1 : c ≠ w ++ "." ++ dt2) (h2 : c ≠ w ++ "." ++ dt2 ++ "_diff") :
    (cleanColPass df w dt2).getCol c = df.getCol c ∧
    (cleanColPass df w dt2).hasCol c = df.hasCol c := by
  simp only [cleanColPass]
  split
  · constructor
    · rw [getCol_setCol_ne _ _ _ _ h1, getCol_setCol_ne _ _ _ _ h2]
    · rw [hasCol_setCol, if_neg h1, hasCol_setCol, if_neg h2]
  · exact ⟨rfl, rfl⟩

theorem cleanColPass_self (df : DF) (v dt : String)
    (hcol : df.hasCol (v ++ "." ++ dt) = true)
    (hnd : v ++ "." ++ dt ≠ v ++ "." ++ dt ++ "_diff") :
    (cleanColPass df v dt).getCol (v ++ "." ++ dt)
      = maskOutliers (change_thresholds dt) (df.getCol (v ++ "." ++ dt))
          (diffAbs (df.getCol (v ++ "." ++ dt)))
    ∧ (cleanColPass df v dt).getCol (v ++ "." ++ dt ++ "_diff")
      = diffAbs (df.getCol (v ++ "." ++ dt))
    ∧ (cleanColPass df v dt).hasCol (v ++ "." ++ dt ++ "_diff") = true := by
  simp only [cleanColPass, hcol, if_pos]
  refine ⟨?_, ?_, ?_⟩
  · rw [getCol_setCol_self, getCol_setCol_ne _ _ _ _ hnd, getCol_setCol_self]
  · rw [getCol_setCol_ne _ _ _ _ (Ne.symm hnd), getCol_setCol_self]
  · rw [hasCol_setCol, if_neg (Ne.symm hnd), hasCol_setCol, if_pos rfl]

theorem innerClean_ne (df : DF) (w c : String)
    (h1 : c ≠ w ++ ".speed") (h2 : c ≠ w ++ ".speed_diff")
    (h3 : c ≠ w ++ ".altitude") (h4 : c ≠ w ++ ".altitude_diff") :
    ((["speed", "altitude"].foldl (fun acc2 dt => cleanColPass acc2 w dt) df).getCol c
      = df.getCol c)
    ∧ ((["speed", "altitude"].foldl (fun acc2 dt => cleanColPass acc2 w dt) df).hasCol c
      = df.hasCol c) := by
  have e1 := cleanColPass_getCol_ne df w "speed" c
    (by rw [mcol_speed]; exact h1) (by rw [dcol_speed]; exact h2)
  have e2 := cleanColPass_getCol_ne (cleanColPass df w "speed") w "altitude" c
    (by rw [mcol_alt]; exact h3) (by rw [dcol_alt]; exact h4)
  exact ⟨e2.1.trans e1.1, e2.2.trans e1.2⟩

theorem cleanFold_ne (c : String) :
    ∀ (vs : List String) (df : DF),
      (∀ w ∈ vs, c ≠ w ++ ".speed" ∧ c ≠ w ++ ".speed_diff" ∧
                 c ≠ w ++ ".altitude" ∧ c ≠ w ++ ".altitude_diff") →
      ((vs.foldl (fun acc v => ["speed", "altitude"].foldl
          (fun acc2 dt => cleanColPass acc2 v dt) acc) df).getCol c = df.getCol c
       ∧ (vs.foldl (fun acc v => ["speed", "altitude"].foldl
          (fun acc2 dt => cleanColPass acc2 v dt) acc) df).hasCol c = df.hasCol c) := by
  intro vs
  induction vs with
  | nil => intro df _; exact ⟨rfl, rfl⟩
  | cons w ws ih =>
    intro df hws
    obtain ⟨hw1, hw2, hw3, hw4⟩ := hws w (by simp)
    have estep := innerClean_ne df w c hw1 hw2 hw3 hw4
    have erest := ih (["speed", "altitude"].foldl
      (fun acc2 dt => cleanColPass acc2 w dt) df) (fun u hu => hws u (by simp [hu]))
    exact ⟨erest.1.trans estep.1, erest.2.trans estep.2⟩

theorem v_cols_ne (v w : String) (hvw : v ≠ w) (c : String)
    (hc : c = v ++ ".speed" ∨ c = v ++ ".altitude" ∨
          c = v ++ ".speed_diff" ∨ c = v ++ ".altitude_diff") :
    c ≠ w ++ ".speed" ∧ c ≠ w ++ ".speed_diff" ∧
    c ≠ w ++ ".altitude" ∧ c ≠ w ++ ".altitude_diff" := by
  rcases hc with h | h | h | h <;> subst h
  · exact ⟨append_ne_left _ hvw, ne_speed_spdiff v w, ne_speed_alt v w,
           ne_speed_altdiff v w⟩
  · exact ⟨Ne.symm (ne_speed_alt w v), ne_alt_spdiff v w, append_ne_left _ hvw,
           ne_alt_altdiff v w⟩
  · exact ⟨Ne.symm (ne_speed_spdiff w v), append_ne_left _ hvw,
           Ne.symm (ne_alt_spdiff w v), ne_spdiff_altdiff v w⟩
  · exact ⟨Ne.symm (ne_speed_altdiff w v), Ne.symm (ne_spdiff_altdiff w v),
           Ne.symm (ne_alt_altdiff w v), append_ne_left _ hvw⟩
theorem cleanCF_cols (v dt : String) (hdt : dt = "speed" ∨ dt = "altitude") :
    ∀ (vs : List String) (df : DF), vs.Nodup → v ∈ vs →
      df.hasCol (v ++ "." ++ dt) = true →
      ((vs.foldl (fun acc u => ["speed", "altitude"].foldl
          (fun acc2 dt2 => cleanColPass acc2 u dt2) acc) df).getCol (v ++ "." ++ dt)
        = maskOutliers (change_thresholds dt) (df.getCol (v ++ "." ++ dt))
            (diffAbs (df.getCol (v ++ "." ++ dt)))
      ∧ (vs.foldl (fun acc u => ["speed", "altitude"].foldl
          (fun acc2 dt2 => cleanColPass acc2 u dt2) acc) df).getCol
            (v ++ "." ++ dt ++ "_diff")
        = diffAbs (df.getCol (v ++ "." ++ dt))
      ∧ (vs.foldl (fun acc u => ["speed", "altitude"].foldl
          (fun acc2 dt2 => cleanColPass acc2 u dt2) acc) df).hasCol
            (v ++ "." ++ dt ++ "_diff") = true) := by
  have hc14 : v ++ "." ++ dt = v ++ ".speed" ∨ v ++ "." ++ dt = v ++ ".altitude" ∨
      v ++ "." ++ dt = v ++ ".speed_diff" ∨ v ++ "." ++ dt = v ++ ".altitude_diff" := by
    rcases hdt with h | h
    · subst h; exact Or.inl (mcol_speed v)
    · subst h; exact Or.inr (Or.inl (mcol_alt v))
  have hc24 : v ++ "." ++ dt ++ "_diff" = v ++ ".speed" ∨
      v ++ "." ++ dt ++ "_diff" = v ++ ".altitude" ∨
      v ++ "." ++ dt ++ "_diff" = v ++ ".speed_diff" ∨
      v ++ "." ++ dt ++ "_diff" = v ++ ".altitude_diff" := by
    rcases hdt with h | h
    · subst h; exact Or.inr (Or.inr (Or.inl (dcol_speed v)))
    · subst h; exact Or.inr (Or.inr (Or.inr (dcol_alt v)))
  intro vs
  induction vs with
  | nil => intro df _ hv _; exact absurd hv (List.not_mem_nil v)
  | cons w ws ih =>
    intro df hnd hv hcol
    rcases List.mem_cons.mp hv with hvw | hvws
    · subst hvw
      have hvnotws : v ∉ ws := (List.nodup_cons.mp hnd).1
      have hfold1 := cleanFold_ne (v ++ "." ++ dt) ws
      have hfold2 := cleanFold_ne (v ++ "." ++ dt ++ "_diff") ws
      rcases hdt with h | h
      · subst h
        have hA := cleanColPass_self df v "speed" hcol (str_ne_append (by decide))
        have hB1 := cleanColPass_getCol_ne (cleanColPass df v "speed") v "altitude"
          (v ++ "." ++ "speed")
          (by rw [mcol_speed, mcol_alt]; exact ne_speed_alt v v)
          (by rw [mcol_speed, dcol_alt]; exact ne_speed_altdiff v v)
        have hB2 := cleanColPass_getCol_ne (cleanColPass df v "speed") v "altitude"
          (v ++ "." ++ "speed" ++ "_diff")
          (by rw [dcol_speed, mcol_alt]; exact Ne.symm (ne_alt_spdiff v v))
          (by rw [dcol_speed, dcol_alt]; exact ne_spdiff_altdiff v v)
        have hf1 := hfold1 (cleanColPass (cleanColPass df v "speed") v "altitude")
          (fun w2 hw2 => v_cols_ne v w2 (fun he => hvnotws (he ▸ hw2)) _
            (Or.inl (mcol_speed v)))
        have hf2 := hfold2 (cleanColPass (cleanColPass df v "speed") v "altitude")
          (fun w2 hw2 => v_cols_ne v w2 (fun he => hvnotws (he ▸ hw2)) _
            (Or.inr (Or.inr (Or.inl (dcol_speed v)))))
        exact ⟨hf1.1.trans (hB1.1.trans hA.1),
               hf2.1.trans (hB2.1.trans hA.2.1),
               hf2.2.trans (hB2.2.trans hA.2.2)⟩
      · subst h
        have hA1 := cleanColPass_getCol_ne df v "speed" (v ++ "." ++ "altitude")
          (by rw [mcol_alt, mcol_speed]; exact Ne.symm (ne_speed_alt v v))
          (by rw [mcol_alt, dcol_speed]; exact ne_alt_spdiff v v)
        have hA2 := cleanColPass_getCol_ne df v "speed"
          (v ++ "." ++ "altitude" ++ "_diff")
          (by rw [dcol_alt, mcol_speed]; exact Ne.symm (ne_speed_altdiff v v))
          (by rw [dcol_alt, dcol_speed]; exact Ne.symm (ne_spdiff_altdiff v v))
        have hAcol : (cleanColPass df v "speed").hasCol (v ++ "." ++ "altitude") = true :=
          hA1.2.trans hcol
        have hB := cleanColPass_self (cleanColPass df v "speed") v "altitude" hAcol
          (str_ne_append (by decide))
        rw [hA1.1] at hB
        have hf1 := hfold1 (cleanColPass (cleanColPass df v "speed") v "altitude")
          (fun w2 hw2 => v_cols_ne v w2 (fun he => hvnotws (he ▸ hw2)) _
            (Or.inr (Or.inl (mcol_alt v))))
        have hf2 := hfold2 (cleanColPass (cleanColPass df v "speed") v "altitude")
          (fun w2 hw2 => v_cols_ne v w2 (fun he => hvnotws (he ▸ hw2)) _
            (Or.inr (Or.inr (Or.inr (dcol_alt v)))))
        exact ⟨hf1.1.trans hB.1, hf2.1.trans hB.2.1, hf2.2.trans hB.2.2⟩
    · have hvw : v ≠ w := fun he => (List.nodup_cons.mp hnd).1 (he ▸ hvws)
      obtain ⟨n1, n2, n3, n4⟩ := v_cols_ne v w hvw _ hc14
      obtain ⟨m1, m2, m3, m4⟩ := v_cols_ne v w hvw _ hc24
      have hMp1 := innerClean_ne df w (v ++ "." ++ dt) n1 n2 n3 n4
      have hMp2 := innerClean_ne df w (v ++ "." ++ dt ++ "_diff") m1 m2 m3 m4
      have hih := ih (["speed", "altitude"].foldl
          (fun acc2 dt2 => cleanColPass acc2 w dt2) df)
        (List.nodup_cons.mp hnd).2 hvws (hMp1.2.trans hcol)
      rw [hMp1.1] at hih
      exact hih

theorem clean_dataframe_cols (df : DF) (v dt : String)
    (hv : v ∈ detect_vehicles df)
    (hdt : dt = "speed" ∨ dt = "altitude")
    (hcol : df.hasCol (v ++ "." ++ dt) = true) :
    (clean_dataframe df).getCol (v ++ "." ++ dt)
      = maskOutliers (change_thresholds dt) (df.getCol (v ++ "." ++ dt))
          (diffAbs (df.getCol (v ++ "." ++ dt)))
    ∧ (clean_dataframe df).getCol (v ++ "." ++ dt ++ "_diff")
      = diffAbs (df.getCol (v ++ "." ++ dt))
    ∧ (clean_dataframe df).hasCol (v ++ "." ++ dt ++ "_diff") = true :=
  cleanCF_cols v dt hdt (detect_vehicles df) df (detect_vehicles_nodup df) hv hcol
theorem diffAbs_length (xs : Col) : (diffAbs xs).length = xs.length := by
  simp [diffAbs]

theorem maskOutliers_getD (th : Int) (xs d : Col) (hlen : d.length = xs.length)
    (i : Nat) :
    (maskOutliers th xs d).getD i none =
      match d.getD i none with
      | some q => if th < q then none else xs.getD i none
      | none => xs.getD i none := by
  rw [maskOutliers, List.getD_eq_getElem?_getD, List.getElem?_zipWith]
  by_cases hi : i < xs.length
  · rw [List.getElem?_eq_getElem hi, List.getElem?_eq_getElem (by omega : i < d.length)]
    rw [List.getD_eq_getElem?_getD d, List.getElem?_eq_getElem (by omega : i < d.length)]
    rw [List.getD_eq_getElem?_getD xs, List.getElem?_eq_getElem hi]
    cases d[i] with
    | none => rfl
    | some q => rfl
  · rw [List.getElem?_eq_none (by omega : xs.length ≤ i)]
    rw [List.getD_eq_getElem?_getD d, List.getElem?_eq_none (by omega : d.length ≤ i)]
    rw [List.getD_eq_getElem?_getD xs, List.getElem?_eq_none (by omega : xs.length ≤ i)]
    rfl

/-- The spec's outlier-rejection example table: one vehicle `s` with speed samples
`[100, 100, 400, 101]`. -/
def dfC2 : DF := ⟨[("s.speed", [some 100, some 100, some 400, some 101])]⟩

/-- Claim C2, counterexample.  The claim says that for speed samples
`[100, 100, 400, 101]` exactly the third sample is nulled and every other sample is
left unchanged.  The one-shot diffs are `[NaN, 0, 300, 299]` and both 300 and 299
exceed the 50 km/h threshold, so the code nulls the third AND the fourth sample:
the output is `[100, 100, null, null]`, not `[100, 100, null, 101]`. -/
theorem claim2_counterexample :
    (clean_dataframe dfC2).getCol "s.speed" = [some 100, some 100, none, none] ∧
    (clean_dataframe dfC2).getCol "s.speed" ≠ [some 100, some 100, none, some 101] := by
  decide

/-- Claim C2 (amended): for the speed samples `[100, 100, 400, 101]` the third AND
fourth samples are nulled (their one-shot absolute frame-to-frame differences 300
and 299 both exceed 50) and the first two are unchanged; in general a sample is
nulled exactly when its absolute frame-to-frame difference — computed once, on the
original column — exceeds the threshold (50 km/h for speed, 1 km for altitude);
every other sample is left unchanged, and nulled samples are not interpolated. -/
theorem claim2 :
    ((clean_dataframe dfC2).getCol "s.speed" = [some 100, some 100, none, none])
    ∧ (∀ (df : DF) (v dt : String), v ∈ detect_vehicles df →
        (dt = "speed" ∨ dt = "altitude") →
        df.hasCol (v ++ "." ++ dt) = true →
        ∀ i : Nat,
          ((diffAbs (df.getCol (v ++ "." ++ dt))).getD i none = none →
            ((clean_dataframe df).getCol (v ++ "." ++ dt)).getD i none
              = (df.getCol (v ++ "." ++ dt)).getD i none)
          ∧ (∀ q : Int, (diffAbs (df.getCol (v ++ "." ++ dt))).getD i none = some q →
            ((clean_dataframe df).getCol (v ++ "." ++ dt)).getD i none
              = if change_thresholds dt < q then none
                else (df.getCol (v ++ "." ++ dt)).getD i none)) := by
  constructor
  · decide
  · intro df v dt hv hdt hcol i
    have hloc := (clean_dataframe_cols df v dt hv hdt hcol).1
    constructor
    · intro h0
      rw [hloc, maskOutliers_getD _ _ _ (diffAbs_length _), h0]
    · intro q hq
      rw [hloc, maskOutliers_getD _ _ _ (diffAbs_length _), hq]

theorem claim2_witness :
    ((clean_dataframe dfC2).getCol ("s" ++ "." ++ "speed")).getD 3 none = none :=
  ((claim2.2 dfC2 "s" "speed" (by decide) (Or.inl rfl) (by decide) 3).2 299
    (by decide)).trans (by decide)

/-- Claim C9: for every detected vehicle and metric in `{speed, altitude}` whose
column is present in the input, `clean_dataframe` adds the helper column
`<v>.<metric>_diff` holding the absolute frame-to-frame difference of the original
column and never removes it: the returned cleaned table still contains it even
though it is not part of the documented column model. -/
theorem claim9 (df : DF) (v dt : String) (hv : v ∈ detect_vehicles df)
    (hdt : dt = "speed" ∨ dt = "altitude")
    (hcol : df.hasCol (v ++ "." ++ dt) = true) :
    (clean_dataframe df).hasCol (v ++ "." ++ dt ++ "_diff") = true ∧
    (clean_dataframe df).getCol (v ++ "." ++ dt ++ "_diff")
      = diffAbs (df.getCol (v ++ "." ++ dt)) :=
  ⟨(clean_dataframe_cols df v dt hv hdt hcol).2.2,
   (clean_dataframe_cols df v dt hv hdt hcol).2.1⟩

theorem claim9_witness :
    (clean_dataframe dfC2).hasCol ("s" ++ "." ++ "speed" ++ "_diff") = true ∧
    (clean_dataframe dfC2).getCol ("s" ++ "." ++ "speed" ++ "_diff")
      = diffAbs (dfC2.getCol ("s" ++ "." ++ "speed")) :=
  claim9 dfC2 "s" "speed" (by decide) (Or.inl rfl) (by decide)
theorem fuelStep_hasCol (acc : DF) (u ft2 : String) :
    (match (possible_names u ft2).find? (fun c => acc.hasCol c) with
     | some c => acc.setCol (fullnessCol u ft2) (acc.getCol c)
     | none => acc.setCol (fullnessCol u ft2)
         (List.replicate acc.nrows (some 0))).hasCol (fullnessCol u ft2) = true := by
  cases hf : (possible_names u ft2).find? (fun c => acc.hasCol c) with
  | none => simp [hasCol_setCol]
  | some c => simp [hasCol_setCol]

theorem fuelStep_mono (acc : DF) (u ft2 c : String) (h : acc.hasCol c = true) :
    (match (possible_names u ft2).find? (fun c2 => acc.hasCol c2) with
     | some c2 => acc.setCol (fullnessCol u ft2) (acc.getCol c2)
     | none => acc.setCol (fullnessCol u ft2)
         (List.replicate acc.nrows (some 0))).hasCol c = true := by
  cases hf : (possible_names u ft2).find? (fun c2 => acc.hasCol c2) with
  | none => exact hasCol_setCol_mono _ _ _ _ h
  | some c2 => exact hasCol_setCol_mono _ _ _ _ h

theorem innerFuel_sets (acc : DF) (u : String) :
    ∀ ft ∈ (["lox", "ch4"] : List String),
      ((["lox", "ch4"] : List String).foldl (fun acc2 ft2 =>
        match (possible_names u ft2).find? (fun c => acc2.hasCol c) with
        | some c => acc2.setCol (fullnessCol u ft2) (acc2.getCol c)
        | none => acc2.setCol (fullnessCol u ft2)
            (List.replicate acc2.nrows (some 0))) acc).hasCol (fullnessCol u ft)
        = true := by
  intro ft hft
  rcases List.mem_cons.mp hft with h | h
  · subst h
    exact fuelStep_mono _ u "ch4" _ (fuelStep_hasCol acc u "lox")
  · rcases List.mem_cons.mp h with h2 | h2
    · subst h2
      exact fuelStep_hasCol _ u "ch4"
    · exact absurd h2 (List.not_mem_nil ft)

theorem innerFuel_mono (acc : DF) (u c : String) (h : acc.hasCol c = true) :
    ((["lox", "ch4"] : List String).foldl (fun acc2 ft2 =>
      match (possible_names u ft2).find? (fun c2 => acc2.hasCol c2) with
      | some c2 => acc2.setCol (fullnessCol u ft2) (acc2.getCol c2)
      | none => acc2.setCol (fullnessCol u ft2)
          (List.replicate acc2.nrows (some 0))) acc).hasCol c = true :=
  fuelStep_mono _ u "ch4" c (fuelStep_mono acc u "lox" c h)

theorem foldFuel_mono (c : String) :
    ∀ (vs : List String) (df : DF), df.hasCol c = true →
      (vs.foldl (fun acc u => (["lox", "ch4"] : List String).foldl (fun acc2 ft2 =>
        match (possible_names u ft2).find? (fun c2 => acc2.hasCol c2) with
        | some c2 => acc2.setCol (fullnessCol u ft2) (acc2.getCol c2)
        | none => acc2.setCol (fullnessCol u ft2)
            (List.replicate acc2.nrows (some 0))) acc) df).hasCol c = true := by
  intro vs
  induction vs with
  | nil => intro df h; exact h
  | cons w ws ih => intro df h; exact ih _ (innerFuel_mono df w c h)

theorem foldFuel_mem (v ft : String) (hft : ft ∈ (["lox", "ch4"] : List String)) :
    ∀ (vs : List String) (df : DF), v ∈ vs →
      (vs.foldl (fun acc u => (["lox", "ch4"] : List String).foldl (fun acc2 ft2 =>
        match (possible_names u ft2).find? (fun c => acc2.hasCol c) with
        | some c => acc2.setCol (fullnessCol u ft2) (acc2.getCol c)
        | none => acc2.setCol (fullnessCol u ft2)
            (List.replicate acc2.nrows (some 0))) acc) df).hasCol (fullnessCol v ft)
        = true := by
  intro vs
  induction vs with
  | nil => intro df hv; exact absurd hv (List.not_mem_nil v)
  | cons w ws ih =>
    intro df hv
    rcases List.mem_cons.mp hv with hvw | hvws
    · subst hvw
      exact foldFuel_mono (fullnessCol v ft) ws _ (innerFuel_sets df v ft hft)
    · exact ih _ hvws

/-- Counterexample table for claim C7: vehicle `a` already has the canonical LOX
column, vehicle `b` has none of the fuel columns. -/
def dfC7 : DF := ⟨[("a.fuel.lox.fullness", [some 1]), ("b.speed", [some 2])]⟩

/-- Claim C7, counterexample.  The claim says that after the pass every detected
vehicle has both canonical fuel columns, for any combination of vehicles with and
without pre-existing canonical columns.  But the pass first checks whether ANY
vehicle has a canonical `<v>.fuel.lox.fullness` column and, if so, returns the
table unchanged: in `dfC7` vehicle `b` is detected yet ends up without
`b.fuel.lox.fullness` (and `a` without `a.fuel.ch4.fullness`). -/
theorem claim7_counterexample :
    prepare_fuel_data_columns dfC7 = dfC7 ∧
    "b" ∈ detect_vehicles dfC7 ∧
    (prepare_fuel_data_columns dfC7).hasCol (fullnessCol "b" "lox") = false := by
  decide

/-- Counterexample table for claim C8: vehicle `a` has both fuel fullness columns
(with a 40-point disagreement at `real_time_seconds = 50`), vehicle `b` is missing
its CH4 column. -/
def dfC8 : DF :=
  ⟨[("real_time_seconds", [some 50]),
    ("a.fuel.lox.fullness", [some 80]),
    ("a.fuel.ch4.fullness", [some 40]),
    ("b.fuel.lox.fullness", [some 10])]⟩

/-- Claim C8, counterexample.  The claim says that when one vehicle is missing a
fuel column the reconciliation pass still reconciles the complete vehicle's
readings.  In `dfC8` vehicle `a` is complete with a 40 > 30 disagreement at
t = 50 < 200, so the claim predicts both of `a`'s readings become 80; but
`normalize_fuel_levels` finds `b.fuel.ch4.fullness` missing and returns the whole
table unchanged — `a.fuel.ch4.fullness` stays 40. -/
theorem claim8_counterexample :
    normalize_fuel_levels dfC8 = dfC8 ∧
    (normalize_fuel_levels dfC8).getCol "a.fuel.ch4.fullness" = [some 40] ∧
    (normalize_fuel_levels dfC8).getCol "a.fuel.ch4.fullness" ≠ [some 80] := by
  decide

/-- Claim C8 (amended): when `normalize_fuel_levels` expects a column that is
absent (`real_time_seconds` or either fullness column of ANY detected vehicle), it
skips the entire reconciliation pass, returning the table unchanged — it never
raises and never aborts the cleaning run, but it also does not reconcile the
vehicles whose columns are complete. -/
theorem claim8_amended (df : DF) (c : String) (hc : c ∈ requiredCols df)
    (hmiss : df.hasCol c = false) : normalize_fuel_levels df = df := by
  have hne : (requiredCols df).filter (fun c2 => ! df.hasCol c2) ≠ [] :=
    List.ne_nil_of_mem (List.mem_filter.mpr ⟨hc, by simp [hmiss]⟩)
  have hempty : ((requiredCols df).filter (fun c2 => ! df.hasCol c2)).isEmpty = false := by
    cases hl : (requiredCols df).filter (fun c2 => ! df.hasCol c2) with
    | nil => exact absurd hl hne
    | cons x xs => rfl
  simp only [normalize_fuel_levels, hempty]
  simp

theorem claim8_witness : normalize_fuel_levels dfC8 = dfC8 :=
  claim8_amended dfC8 (fullnessCol "b" "ch4") (by decide) (by decide)
theorem fullness_lox (v : String) : fullnessCol v "lox" = v ++ ".fuel.lox.fullness" := by
  simp only [fullnessCol]
  rw [String.append_assoc (v ++ ".fuel."), String.append_assoc v]
  exact rfl

theorem fullness_ch4 (v : String) : fullnessCol v "ch4" = v ++ ".fuel.ch4.fullness" := by
  simp only [fullnessCol]
  rw [String.append_assoc (v ++ ".fuel."), String.append_assoc v]
  exact rfl

theorem lox_ne_ch4 (v w : String) : fullnessCol v "lox" ≠ fullnessCol w "ch4" := by
  rw [fullness_lox, fullness_ch4]
  exact ne_lox_ch4 v w

theorem fuel_cols_ne (v w : String) (hvw : v ≠ w) :
    (fullnessCol v "lox" ≠ fullnessCol w "lox" ∧
     fullnessCol v "lox" ≠ fullnessCol w "ch4") ∧
    (fullnessCol v "ch4" ≠ fullnessCol w "lox" ∧
     fullnessCol v "ch4" ≠ fullnessCol w "ch4") := by
  refine ⟨⟨?_, lox_ne_ch4 v w⟩, ⟨Ne.symm (lox_ne_ch4 w v), ?_⟩⟩
  · rw [fullness_lox, fullness_lox]
    exact append_ne_left _ hvw
  · rw [fullness_ch4, fullness_ch4]
    exact append_ne_left _ hvw

theorem normVR_getCell_ne_row (row : String → Cell) (t : Cell) (idx : Nat) (acc : DF)
    (w : String) (j : Nat) (c : String) (hj : j ≠ idx) :
    (normalizeVehicleRow row t idx acc w).getCell j c = acc.getCell j c := by
  simp only [normalizeVehicleRow]
  repeat' split
  all_goals
    first
    | rfl
    | rw [getCell_setCell_ne_row _ _ _ _ _ _ hj, getCell_setCell_ne_row _ _ _ _ _ _ hj]

theorem normVR_getCell_ne_col (row : String → Cell) (t : Cell) (idx : Nat) (acc : DF)
    (w : String) (j : Nat) (c : String)
    (h1 : c ≠ fullnessCol w "lox") (h2 : c ≠ fullnessCol w "ch4") :
    (normalizeVehicleRow row t idx acc w).getCell j c = acc.getCell j c := by
  simp only [normalizeVehicleRow]
  repeat' split
  all_goals
    first
    | rfl
    | rw [getCell_setCell_ne_col _ _ _ _ _ _ h2, getCell_setCell_ne_col _ _ _ _ _ _ h1]

theorem foldVR_getCell_ne_row (row : String → Cell) (t : Cell) (idx : Nat) :
    ∀ (vehicles : List String) (acc : DF) (j : Nat) (c : String), j ≠ idx →
      ((vehicles.foldl (normalizeVehicleRow row t idx) acc).getCell j c
        = acc.getCell j c) := by
  intro vehicles
  induction vehicles with
  | nil => intro acc j c _; rfl
  | cons w ws ih =>
    intro acc j c hj
    exact (ih _ j c hj).trans (normVR_getCell_ne_row row t idx acc w j c hj)

theorem foldVR_getCell_ne_col (row : String → Cell) (t : Cell) (idx : Nat) :
    ∀ (vehicles : List String) (acc : DF) (j : Nat) (c : String),
      (∀ w ∈ vehicles, c ≠ fullnessCol w "lox" ∧ c ≠ fullnessCol w "ch4") →
      ((vehicles.foldl (normalizeVehicleRow row t idx) acc).getCell j c
        = acc.getCell j c) := by
  intro vehicles
  induction vehicles with
  | nil => intro acc j c _; rfl
  | cons w ws ih =>
    intro acc j c hws
    obtain ⟨h1, h2⟩ := hws w (by simp)
    exact (ih _ j c (fun u hu => hws u (by simp [hu]))).trans
      (normVR_getCell_ne_col row t idx acc w j c h1 h2)

theorem normRow_getCell_ne_row (vehicles : List String) (df : DF) (j i : Nat)
    (c : String) (hi : i ≠ j) :
    (normalizeRow vehicles df j).getCell i c = df.getCell i c :=
  foldVR_getCell_ne_row (fun c2 => df.getCell j c2) (df.getCell j "real_time_seconds")
    j vehicles df i c hi

theorem foldRows_getCell (vehicles : List String) :
    ∀ (L : List Nat) (df : DF) (idx : Nat) (c : String), (∀ j ∈ L, j ≠ idx) →
      ((L.foldl (normalizeRow vehicles) df).getCell idx c = df.getCell idx c) := by
  intro L
  induction L with
  | nil => intro df idx c _; rfl
  | cons j L2 ih =>
    intro df idx c hL
    exact (ih _ idx c (fun j2 hj2 => hL j2 (by simp [hj2]))).trans
      (normRow_getCell_ne_row vehicles df j idx c (fun he => hL j (by simp) he.symm))

theorem foldVR_target (row : String → Cell) (t : Cell) (idx : Nat) :
    ∀ (vehicles : List String), vehicles.Nodup → ∀ v ∈ vehicles,
      ∀ (acc : DF) (lox ch4 : Int),
      row (fullnessCol v "lox") = some lox →
      row (fullnessCol v "ch4") = some ch4 →
      acc.getCell idx (fullnessCol v "lox") = some lox →
      acc.getCell idx (fullnessCol v "ch4") = some ch4 →
      (((vehicles.foldl (normalizeVehicleRow row t idx) acc).getCell idx
          (fullnessCol v "lox")
        = if 30 < iabs (lox - ch4) then some (reconcile t lox ch4) else some lox)
      ∧ ((vehicles.foldl (normalizeVehicleRow row t idx) acc).getCell idx
          (fullnessCol v "ch4")
        = if 30 < iabs (lox - ch4) then some (reconcile t lox ch4) else some ch4)) := by
  intro vehicles
  induction vehicles with
  | nil => intro _ v hv; exact absurd hv (List.not_mem_nil v)
  | cons w ws ih =>
    intro hnd v hv acc lox ch4 hrl hrc hal hac
    rcases List.mem_cons.mp hv with hvw | hvws
    · subst hvw
      have hvnot : v ∉ ws := (List.nodup_cons.mp hnd).1
      have hA : ((normalizeVehicleRow row t idx acc v).getCell idx (fullnessCol v "lox")
            = if 30 < iabs (lox - ch4) then some (reconcile t lox ch4) else some lox)
          ∧ ((normalizeVehicleRow row t idx acc v).getCell idx (fullnessCol v "ch4")
            = if 30 < iabs (lox - ch4) then some (reconcile t lox ch4) else some ch4) := by
        simp only [normalizeVehicleRow, hrl, hrc]
        by_cases hgt : 30 < iabs (lox - ch4)
        · simp only [if_pos hgt]
          constructor
          · rw [getCell_setCell_ne_col _ _ _ _ _ _ (lox_ne_ch4 v v)]
            exact getCell_setCell_self _ _ _ _ (getCell_lt_length hal)
          · have hlen : idx < (((acc.setCell (fullnessCol v "lox") idx
                (some (reconcile t lox ch4)))).getCol (fullnessCol v "ch4")).length := by
              rw [DF.setCell, getCol_setCol_ne _ _ _ _ (Ne.symm (lox_ne_ch4 v v))]
              exact getCell_lt_length hac
            exact getCell_setCell_self _ _ _ _ hlen
        · simp only [if_neg hgt]
          exact ⟨hal, hac⟩
      have hp1 := foldVR_getCell_ne_col row t idx ws
        (normalizeVehicleRow row t idx acc v) idx (fullnessCol v "lox")
        (fun u hu => (fuel_cols_ne v u (fun he => hvnot (he ▸ hu))).1)
      have hp2 := foldVR_getCell_ne_col row t idx ws
        (normalizeVehicleRow row t idx acc v) idx (fullnessCol v "ch4")
        (fun u hu => (fuel_cols_ne v u (fun he => hvnot (he ▸ hu))).2)
      exact ⟨hp1.trans hA.1, hp2.trans hA.2⟩
    · have hvw : v ≠ w := fun he => (List.nodup_cons.mp hnd).1 (he ▸ hvws)
      have hs1 := normVR_getCell_ne_col row t idx acc w idx (fullnessCol v "lox")
        (fuel_cols_ne v w hvw).1.1 (fuel_cols_ne v w hvw).1.2
      have hs2 := normVR_getCell_ne_col row t idx acc w idx (fullnessCol v "ch4")
        (fuel_cols_ne v w hvw).2.1 (fuel_cols_ne v w hvw).2.2
      exact ih (List.nodup_cons.mp hnd).2 v hvws _ lox ch4 hrl hrc
        (hs1.trans hal) (hs2.trans hac)
theorem normalize_fuel_levels_cell (df : DF) (v : String) (idx : Nat) (lox ch4 : Int)
    (hv : v ∈ detect_vehicles df)
    (hreq : ∀ c ∈ requiredCols df, df.hasCol c = true)
    (hidx : idx < df.nrows)
    (hl : df.getCell idx (fullnessCol v "lox") = some lox)
    (hc : df.getCell idx (fullnessCol v "ch4") = some ch4) :
    ((normalize_fuel_levels df).getCell idx (fullnessCol v "lox")
      = if 30 < iabs (lox - ch4)
        then some (reconcile (df.getCell idx "real_time_seconds") lox ch4)
        else some lox)
    ∧ ((normalize_fuel_levels df).getCell idx (fullnessCol v "ch4")
      = if 30 < iabs (lox - ch4)
        then some (reconcile (df.getCell idx "real_time_seconds") lox ch4)
        else some ch4) := by
  have hmiss : (requiredCols df).filter (fun c => ! df.hasCol c) = [] := by
    rw [List.filter_eq_nil_iff]
    intro c hcmem
    simp [hreq c hcmem]
  have hnorm : normalize_fuel_levels df
      = (List.range df.nrows).foldl (normalizeRow (detect_vehicles df)) df := by
    simp only [normalize_fuel_levels, hmiss]
    rfl
  have hmemr : idx ∈ List.range df.nrows := List.mem_range.mpr hidx
  obtain ⟨l1, l2, hsplit⟩ := List.append_of_mem hmemr
  have hndr := List.nodup_range df.nrows
  rw [hsplit, List.nodup_append] at hndr
  obtain ⟨hnd1, hnd2, hdisj⟩ := hndr
  have hl1 : ∀ j ∈ l1, j ≠ idx := fun j hj he => hdisj hj (by simp [he])
  have hl2 : ∀ j ∈ l2, j ≠ idx := fun j hj he =>
    (List.nodup_cons.mp hnd2).1 (he ▸ hj)
  have hagree : ∀ c, (l1.foldl (normalizeRow (detect_vehicles df)) df).getCell idx c
      = df.getCell idx c :=
    fun c => foldRows_getCell (detect_vehicles df) l1 df idx c hl1
  have htar := foldVR_target
      (fun c => (l1.foldl (normalizeRow (detect_vehicles df)) df).getCell idx c)
      ((l1.foldl (normalizeRow (detect_vehicles df)) df).getCell idx
        "real_time_seconds")
      idx (detect_vehicles df) (detect_vehicles_nodup df) v hv
      (l1.foldl (normalizeRow (detect_vehicles df)) df) lox ch4
      ((hagree _).trans hl) ((hagree _).trans hc)
      ((hagree _).trans hl) ((hagree _).trans hc)
  have hmid : normalizeRow (detect_vehicles df)
      (l1.foldl (normalizeRow (detect_vehicles df)) df) idx
      = (detect_vehicles df).foldl
          (normalizeVehicleRow
            (fun c => (l1.foldl (normalizeRow (detect_vehicles df)) df).getCell idx c)
            ((l1.foldl (normalizeRow (detect_vehicles df)) df).getCell idx
              "real_time_seconds") idx)
          (l1.foldl (normalizeRow (detect_vehicles df)) df) := rfl
  rw [hnorm, hsplit, List.foldl_append, List.foldl_cons]
  constructor
  · rw [foldRows_getCell (detect_vehicles df) l2 _ idx _ hl2, hmid,
        ← hagree "real_time_seconds"]
    exact htar.1
  · rw [foldRows_getCell (detect_vehicles df) l2 _ idx _ hl2, hmid,
        ← hagree "real_time_seconds"]
    exact htar.2

/-- The worked example of the specification: one vehicle `x`, readings
`lox = 80`, `ch4 = 40` at times 50 s and 250 s. -/
def dfC4 : DF :=
  ⟨[("real_time_seconds", [some 50, some 250]),
    ("x.fuel.lox.fullness", [some 80, some 80]),
    ("x.fuel.ch4.fullness", [some 40, some 40])]⟩

/-- C4: for every row and every detected vehicle whose LOX and CH4 fullness
readings differ by more than 30, `normalize_fuel_levels` overwrites both
fullness columns with the maximum of the two when `real_time_seconds` is below
200 and with the minimum when it is 200 or more, and leaves rows whose
difference is at most 30 unchanged; in particular `lox = 80, ch4 = 40` at
`t = 50` both become 80, and at `t = 250` both become 40. -/
theorem claim4 :
    (∀ (df : DF) (v : String) (idx : Nat) (lox ch4 t : Int),
      v ∈ detect_vehicles df →
      (∀ c ∈ requiredCols df, df.hasCol c = true) →
      idx < df.nrows →
      df.getCell idx "real_time_seconds" = some t →
      df.getCell idx (fullnessCol v "lox") = some lox →
      df.getCell idx (fullnessCol v "ch4") = some ch4 →
      ((30 < iabs (lox - ch4) →
        ((normalize_fuel_levels df).getCell idx (fullnessCol v "lox")
            = some (if t < 200 then imax lox ch4 else imin lox ch4)
         ∧ (normalize_fuel_levels df).getCell idx (fullnessCol v "ch4")
            = some (if t < 200 then imax lox ch4 else imin lox ch4)))
       ∧ (iabs (lox - ch4) ≤ 30 →
        ((normalize_fuel_levels df).getCell idx (fullnessCol v "lox") = some lox
         ∧ (normalize_fuel_levels df).getCell idx (fullnessCol v "ch4")
            = some ch4))))
    ∧ ((normalize_fuel_levels dfC4).getCol (fullnessCol "x" "lox")
        = [some 80, some 40]
       ∧ (normalize_fuel_levels dfC4).getCol (fullnessCol "x" "ch4")
        = [some 80, some 40]) := by
  constructor
  · intro df v idx lox ch4 t hv hreq hidx ht hlx hc4
    have hcell := normalize_fuel_levels_cell df v idx lox ch4 hv hreq hidx hlx hc4
    rw [ht] at hcell
    constructor
    · intro hgt
      rw [hcell.1, hcell.2, if_pos hgt, if_pos hgt]
      exact ⟨rfl, rfl⟩
    · intro hle
      have hngt : ¬ 30 < iabs (lox - ch4) := by omega
      rw [hcell.1, hcell.2, if_neg hngt, if_neg hngt]
      exact ⟨rfl, rfl⟩
  · exact ⟨by decide, by decide⟩

/-- C4 at a concrete input: the specification example evaluated on `dfC4`. -/
theorem claim4_witness :
    (normalize_fuel_levels dfC4).getCell 0 (fullnessCol "x" "lox") = some 80
    ∧ (normalize_fuel_levels dfC4).getCell 1 (fullnessCol "x" "ch4") = some 40 :=
  ⟨((claim4.1 dfC4 "x" 0 80 40 50 (by decide) (by decide) (by decide)
      (by decide) (by decide) (by decide)).1 (by decide)).1.trans (by decide),
   ((claim4.1 dfC4 "x" 1 80 40 250 (by decide) (by decide) (by decide)
      (by decide) (by decide) (by decide)).1 (by decide)).2.trans (by decide)⟩
/-- Number of `'.'` characters in a character list. -/
def countDot : List Char → Nat
  | [] => 0
  | c :: rest => (if c = '.' then 1 else 0) + countDot rest

theorem countDot_append (l1 l2 : List Char) :
    countDot (l1 ++ l2) = countDot l1 + countDot l2 := by
  induction l1 with
  | nil => simp [countDot]
  | cons c rest ih => simp [countDot, ih]; omega

theorem countDot_eq_zero {l : List Char} (h : '.' ∉ l) : countDot l = 0 := by
  induction l with
  | nil => rfl
  | cons c rest ih =>
    simp only [List.mem_cons, not_or] at h
    have hc : ¬ c = '.' := fun he => h.1 he.symm
    simp [countDot, hc, ih h.2]

theorem splitDotChars_ne_nil (l : List Char) : splitDotChars l ≠ [] := by
  cases l with
  | nil => simp [splitDotChars]
  | cons c rest =>
    simp only [splitDotChars]
    cases splitDotChars rest with
    | nil => simp
    | cons g gs =>
      by_cases hc : c = '.' <;> simp [hc]

theorem splitDotChars_head_dotFree :
    ∀ (l : List Char) (g : List Char) (gs : List (List Char)),
      splitDotChars l = g :: gs → '.' ∉ g := by
  intro l
  induction l with
  | nil =>
    intro g gs h
    simp only [splitDotChars] at h
    injection h with h1 h2
    rw [← h1]
    simp
  | cons c rest ih =>
    intro g gs h
    simp only [splitDotChars] at h
    split at h
    next heq => exact absurd heq (splitDotChars_ne_nil rest)
    next g2 gs2 heq =>
      split at h
      · injection h with h1 h2
        rw [← h1]
        simp
      · injection h with h1 h2
        rw [← h1]
        simp only [List.mem_cons, not_or]
        refine ⟨fun he => ?_, ih g2 gs2 heq⟩
        rename_i hc
        exact hc he.symm

theorem splitOnDot_head_dotFree (col : String) :
    '.' ∉ ((splitOnDot col).headD "").data := by
  cases hs : splitDotChars col.data with
  | nil => exact absurd hs (splitDotChars_ne_nil _)
  | cons g gs =>
    simp only [splitOnDot, hs, List.map_cons, List.headD_cons]
    exact splitDotChars_head_dotFree col.data g gs hs

theorem detect_vehicles_dotFree (df : DF) (v : String) (hv : v ∈ detect_vehicles df) :
    '.' ∉ v.data := by
  obtain ⟨-, col, -, -, hp⟩ := (mem_detect_vehicles df v).mp hv
  rw [← hp]
  exact splitOnDot_head_dotFree col

theorem firstDotCancel :
    ∀ (l1 l1' l2 l2' : List Char), '.' ∉ l1 → '.' ∉ l1' →
      l1 ++ '.' :: l2 = l1' ++ '.' :: l2' → l1 = l1' ∧ l2 = l2' := by
  intro l1
  induction l1 with
  | nil =>
    intro l1' l2 l2' _ h1' heq
    cases l1' with
    | nil => simpa using heq
    | cons a t =>
      simp only [List.nil_append, List.cons_append, List.cons.injEq] at heq
      exact absurd (heq.1 ▸ List.mem_cons_self a t) h1'
  | cons c t ih =>
    intro l1' l2 l2' h1 h1' heq
    cases l1' with
    | nil =>
      simp only [List.cons_append, List.nil_append, List.cons.injEq] at heq
      exact absurd (heq.1 ▸ List.mem_cons_self c t) h1
    | cons a t' =>
      simp only [List.cons_append, List.cons.injEq] at heq
      obtain ⟨hca, heq2⟩ := heq
      simp only [List.mem_cons, not_or] at h1 h1'
      obtain ⟨ht, hl2⟩ := ih t' l2 l2' h1.2 h1'.2 heq2
      exact ⟨by rw [hca, ht], hl2⟩
theorem canon_data_lox (v : String) :
    (fullnessCol v "lox").data = v.data ++ '.' :: "fuel.lox.fullness".data := by
  rw [fullness_lox, String.data_append]

theorem canon_data_ch4 (v : String) :
    (fullnessCol v "ch4").data = v.data ++ '.' :: "fuel.ch4.fullness".data := by
  rw [fullness_ch4, String.data_append]

theorem canon_inj {u v : String} (hu : '.' ∉ u.data) (hv : '.' ∉ v.data)
    {ft1 ft2 : String} (h1 : ft1 ∈ (["lox", "ch4"] : List String))
    (h2 : ft2 ∈ (["lox", "ch4"] : List String))
    (heq : fullnessCol u ft1 = fullnessCol v ft2) : u = v ∧ ft1 = ft2 := by
  have hd := congrArg String.data heq
  simp only [List.mem_cons, List.not_mem_nil, or_false] at h1 h2
  rcases h1 with rfl | rfl <;> rcases h2 with rfl | rfl
  · rw [canon_data_lox, canon_data_lox] at hd
    obtain ⟨he, -⟩ := firstDotCancel _ _ _ _ hu hv hd
    exact ⟨String.ext he, rfl⟩
  · rw [canon_data_lox, canon_data_ch4] at hd
    obtain ⟨-, htail⟩ := firstDotCancel _ _ _ _ hu hv hd
    exact absurd htail (by decide)
  · rw [canon_data_ch4, canon_data_lox] at hd
    obtain ⟨-, htail⟩ := firstDotCancel _ _ _ _ hu hv hd
    exact absurd htail (by decide)
  · rw [canon_data_ch4, canon_data_ch4] at hd
    obtain ⟨he, -⟩ := firstDotCancel _ _ _ _ hu hv hd
    exact ⟨String.ext he, rfl⟩

theorem countDot_alt (v p1 ft p2 : String) :
    countDot ((v ++ p1 ++ ft ++ p2)).data
      = countDot v.data + countDot p1.data + countDot ft.data + countDot p2.data := by
  rw [String.data_append, String.data_append, String.data_append,
      countDot_append, countDot_append, countDot_append]

theorem canon_ne_alt {w v : String} (hw : '.' ∉ w.data) (hv : '.' ∉ v.data)
    {ftw ftv : String} (hftw : ftw ∈ (["lox", "ch4"] : List String))
    (hftv : ftv ∈ (["lox", "ch4"] : List String)) :
    fullnessCol w ftw ≠ v ++ "_fuel_" ++ ftv ++ "_fullness"
    ∧ fullnessCol w ftw ≠ v ++ "." ++ ftv ++ "_fullness"
    ∧ fullnessCol w ftw ≠ v ++ "_" ++ ftv ++ "_fullness" := by
  have hftw0 : countDot ftw.data = 0 := by
    simp only [List.mem_cons, List.not_mem_nil, or_false] at hftw
    rcases hftw with rfl | rfl <;> rfl
  have hftv0 : countDot ftv.data = 0 := by
    simp only [List.mem_cons, List.not_mem_nil, or_false] at hftv
    rcases hftv with rfl | rfl <;> rfl
  have hcanon : countDot (fullnessCol w ftw).data = 3 := by
    rw [show fullnessCol w ftw = w ++ ".fuel." ++ ftw ++ ".fullness" from rfl,
        countDot_alt, countDot_eq_zero hw, hftw0]
    rfl
  refine ⟨fun he => ?_, fun he => ?_, fun he => ?_⟩
  all_goals
    have hcd := congrArg (fun s => countDot s.data) he
    simp only at hcd
    rw [hcanon, countDot_alt, countDot_eq_zero hv, hftv0] at hcd
    exact absurd hcd (by decide)

theorem canon_ne_possible {w v : String} (hw : '.' ∉ w.data) (hv : '.' ∉ v.data)
    {ftw ftv : String} (hftw : ftw ∈ (["lox", "ch4"] : List String))
    (hftv : ftv ∈ (["lox", "ch4"] : List String))
    (hne : ¬ (w = v ∧ ftw = ftv)) :
    ∀ c ∈ possible_names v ftv, fullnessCol w ftw ≠ c := by
  intro c hc
  obtain ⟨ha1, ha2, ha3⟩ := canon_ne_alt hw hv hftw hftv
  simp only [possible_names, List.mem_cons, List.not_mem_nil, or_false] at hc
  rcases hc with rfl | rfl | rfl | rfl
  · exact fun he => hne (canon_inj hw hv hftw hftv he)
  · exact ha1
  · exact ha2
  · exact ha3
theorem setColList_self :
    ∀ (m : List (String × Col)) (u : String), (lookupCol m u).isSome = true →
      setColList m u ((lookupCol m u).getD []) = m := by
  intro m
  induction m with
  | nil => intro u h; simp [lookupCol] at h
  | cons kc rest ih =>
    obtain ⟨k, c⟩ := kc
    intro u h
    by_cases hk : u = k
    · simp [setColList, lookupCol, hk]
    · simp only [lookupCol, if_neg hk] at h
      simp only [setColList, lookupCol, if_neg hk]
      rw [ih u h]

theorem setCol_self_id (df : DF) (u : String) (h : df.hasCol u = true) :
    df.setCol u (df.getCol u) = df := by
  obtain ⟨cols⟩ := df
  show DF.mk (setColList cols u ((lookupCol cols u).getD [])) = DF.mk cols
  rw [setColList_self cols u h]

theorem nrows_setCol_absent (df : DF) (u : String) (x : Col)
    (h : df.hasCol u = false) (hne : df.cols ≠ []) :
    (df.setCol u x).nrows = df.nrows ∧ (df.setCol u x).cols ≠ [] := by
  obtain ⟨cols⟩ := df
  rcases cols with _ | ⟨⟨k, col⟩, rest⟩
  · exact absurd rfl hne
  · have hk : ¬ u = k := by
      intro he
      simp [DF.hasCol, lookupCol, he] at h
    constructor
    · show (DF.mk (setColList ((k, col) :: rest) u x)).nrows = _
      simp only [setColList, if_neg hk]
      rfl
    · show setColList ((k, col) :: rest) u x ≠ []
      simp only [setColList, if_neg hk]
      simp

theorem find?_congr {p q : String → Bool} :
    ∀ (l : List String), (∀ c ∈ l, p c = q c) → l.find? p = l.find? q := by
  intro l
  induction l with
  | nil => intro _; rfl
  | cons a t ih =>
    intro h
    have ha := h a (by simp)
    by_cases hpa : p a = true
    · rw [List.find?_cons_of_pos _ hpa,
          List.find?_cons_of_pos _ (by rw [← ha]; exact hpa)]
    · rw [List.find?_cons_of_neg _ hpa,
          List.find?_cons_of_neg _ (fun hq => hpa (by rw [ha]; exact hq))]
      exact ih (fun c hc => h c (by simp [hc]))

/-- One `(vehicle, fuel_type)` iteration of the renaming loop of
`prepare_fuel_data_columns`. -/
def fuelStep (acc : DF) (u ft2 : String) : DF :=
  match (possible_names u ft2).find? (fun c => acc.hasCol c) with
  | some c => acc.setCol (fullnessCol u ft2) (acc.getCol c)
  | none => acc.setCol (fullnessCol u ft2) (List.replicate acc.nrows (some 0))

/-- The two fuel-type iterations for one vehicle. -/
def innerFuel (acc : DF) (u : String) : DF :=
  (["lox", "ch4"] : List String).foldl (fun acc2 ft2 => fuelStep acc2 u ft2) acc

/-- The whole renaming loop over the detected vehicles. -/
def foldFuel (vs : List String) (df : DF) : DF :=
  vs.foldl (fun acc u => innerFuel acc u) df

theorem prepare_eq_foldFuel (df : DF)
    (hany : (detect_vehicles df).any (fun v => df.hasCol (fullnessCol v "lox"))
      = false) :
    prepare_fuel_data_columns df = foldFuel (detect_vehicles df) df := by
  simp only [prepare_fuel_data_columns, hany, Bool.false_eq_true, if_false]
  rfl

theorem fuelStep_preserve (acc : DF) (u ft2 c : String) (h : c ≠ fullnessCol u ft2) :
    (fuelStep acc u ft2).getCol c = acc.getCol c
    ∧ (fuelStep acc u ft2).hasCol c = acc.hasCol c := by
  unfold fuelStep
  cases hf : (possible_names u ft2).find? (fun c2 => acc.hasCol c2) with
  | some c2 => exact ⟨getCol_setCol_ne _ _ _ _ h, by rw [hasCol_setCol, if_neg h]⟩
  | none => exact ⟨getCol_setCol_ne _ _ _ _ h, by rw [hasCol_setCol, if_neg h]⟩

theorem innerFuel_preserve (acc : DF) (u c : String)
    (h1 : c ≠ fullnessCol u "lox") (h2 : c ≠ fullnessCol u "ch4") :
    (innerFuel acc u).getCol c = acc.getCol c
    ∧ (innerFuel acc u).hasCol c = acc.hasCol c := by
  obtain ⟨g1, hh1⟩ := fuelStep_preserve acc u "lox" c h1
  obtain ⟨g2, hh2⟩ := fuelStep_preserve (fuelStep acc u "lox") u "ch4" c h2
  exact ⟨g2.trans g1, hh2.trans hh1⟩

theorem foldFuel_preserve :
    ∀ (vs : List String) (acc : DF) (c : String),
      (∀ u ∈ vs, c ≠ fullnessCol u "lox" ∧ c ≠ fullnessCol u "ch4") →
      (foldFuel vs acc).getCol c = acc.getCol c
      ∧ (foldFuel vs acc).hasCol c = acc.hasCol c := by
  intro vs
  induction vs with
  | nil => intro acc c _; exact ⟨rfl, rfl⟩
  | cons w ws ih =>
    intro acc c h
    obtain ⟨g2, hh2⟩ := ih (innerFuel acc w) c (fun u hu => h u (by simp [hu]))
    obtain ⟨g1, hh1⟩ := innerFuel_preserve acc w c (h w (by simp)).1 (h w (by simp)).2
    exact ⟨g2.trans g1, hh2.trans hh1⟩

theorem fuelStep_nrows (acc : DF) (u ft2 : String) (hne : acc.cols ≠ []) :
    (fuelStep acc u ft2).nrows = acc.nrows ∧ (fuelStep acc u ft2).cols ≠ [] := by
  by_cases hc : acc.hasCol (fullnessCol u ft2) = true
  · have hstep : fuelStep acc u ft2
        = acc.setCol (fullnessCol u ft2) (acc.getCol (fullnessCol u ft2)) := by
      unfold fuelStep
      simp only [possible_names]
      have hc2 : acc.hasCol (u ++ ".fuel." ++ ft2 ++ ".fullness") = true := hc
      rw [List.find?_cons_of_pos _ hc2]
      exact rfl
    rw [hstep, setCol_self_id acc _ hc]
    exact ⟨rfl, hne⟩
  · rw [Bool.not_eq_true] at hc
    unfold fuelStep
    cases hf : (possible_names u ft2).find? (fun c2 => acc.hasCol c2) with
    | some c2 => exact nrows_setCol_absent acc _ _ hc hne
    | none => exact nrows_setCol_absent acc _ _ hc hne

/-- The column content the renaming loop stores in a canonical fuel column when no
vehicle already has a canonical LOX column: a copy of the first historical name
present in the frame, else a zero-filled column of the frame's length. -/
def fillCol (df : DF) (v ft : String) : Col :=
  match (possible_names v ft).find? (fun c => df.hasCol c) with
  | some c => df.getCol c
  | none => List.replicate df.nrows (some 0)

theorem fuelStep_fill (df acc : DF) (v ft : String)
    (hagree : ∀ c ∈ possible_names v ft,
      acc.hasCol c = df.hasCol c ∧ acc.getCol c = df.getCol c)
    (hrows : acc.nrows = df.nrows) :
    (fuelStep acc v ft).getCol (fullnessCol v ft) = fillCol df v ft := by
  unfold fuelStep fillCol
  rw [find?_congr _ (fun c hc => (hagree c hc).1)]
  cases hf : (possible_names v ft).find? (fun c => df.hasCol c) with
  | some c =>
    rw [getCol_setCol_self]
    exact (hagree c (List.mem_of_find?_eq_some hf)).2
  | none => rw [getCol_setCol_self, hrows]
theorem foldFuel_fill (df : DF) :
    ∀ (vs : List String) (acc : DF),
      vs.Nodup →
      (∀ u ∈ vs, '.' ∉ u.data) →
      (∀ u ∈ vs, ∀ ft3 ∈ (["lox", "ch4"] : List String), ∀ c ∈ possible_names u ft3,
        acc.hasCol c = df.hasCol c ∧ acc.getCol c = df.getCol c) →
      acc.nrows = df.nrows → acc.cols ≠ [] →
      ∀ v ∈ vs, ∀ ft ∈ (["lox", "ch4"] : List String),
        (foldFuel vs acc).getCol (fullnessCol v ft) = fillCol df v ft := by
  intro vs
  induction vs with
  | nil => intro acc _ _ _ _ _ v hv; exact absurd hv (List.not_mem_nil v)
  | cons w ws ih =>
    intro acc hnd hdf hagree hrows hcne v hv ft hft
    have hwdf : '.' ∉ w.data := hdf w (by simp)
    have hlox_mem : ("lox" : String) ∈ (["lox", "ch4"] : List String) := by simp
    have hch4_mem : ("ch4" : String) ∈ (["lox", "ch4"] : List String) := by simp
    have hfill_lox : (fuelStep acc w "lox").getCol (fullnessCol w "lox")
        = fillCol df w "lox" :=
      fuelStep_fill df acc w "lox" (hagree w (by simp) "lox" hlox_mem) hrows
    have hrows1 := fuelStep_nrows acc w "lox" hcne
    have hagree_ch4 : ∀ c ∈ possible_names w "ch4",
        (fuelStep acc w "lox").hasCol c = df.hasCol c
        ∧ (fuelStep acc w "lox").getCol c = df.getCol c := by
      intro c hc
      have hne2 : c ≠ fullnessCol w "lox" :=
        fun he => canon_ne_possible hwdf hwdf hlox_mem hch4_mem
          (fun hp => absurd hp.2 (by decide)) c hc he.symm
      obtain ⟨g, hh⟩ := fuelStep_preserve acc w "lox" c hne2
      exact ⟨hh.trans (hagree w (by simp) "ch4" hch4_mem c hc).1,
             g.trans (hagree w (by simp) "ch4" hch4_mem c hc).2⟩
    have hfill_ch4 : (innerFuel acc w).getCol (fullnessCol w "ch4")
        = fillCol df w "ch4" :=
      fuelStep_fill df (fuelStep acc w "lox") w "ch4" hagree_ch4
        (hrows1.1.trans hrows)
    have hfill_lox2 : (innerFuel acc w).getCol (fullnessCol w "lox")
        = fillCol df w "lox" := by
      obtain ⟨g, -⟩ := fuelStep_preserve (fuelStep acc w "lox") w "ch4"
        (fullnessCol w "lox") (lox_ne_ch4 w w)
      exact g.trans hfill_lox
    rcases List.mem_cons.mp hv with hvw | hvws
    · subst hvw
      have hnotin : v ∉ ws := (List.nodup_cons.mp hnd).1
      obtain ⟨g, -⟩ := foldFuel_preserve ws (innerFuel acc v) (fullnessCol v ft)
        (fun u hu =>
          ⟨fun he => hnotin (by
              rw [(canon_inj (hdf v (by simp)) (hdf u (by simp [hu]))
                    hft hlox_mem he).1]
              exact hu),
           fun he => hnotin (by
              rw [(canon_inj (hdf v (by simp)) (hdf u (by simp [hu]))
                    hft hch4_mem he).1]
              exact hu)⟩)
      have hft2 : ft = "lox" ∨ ft = "ch4" := by simpa using hft
      rcases hft2 with rfl | rfl
      · exact g.trans hfill_lox2
      · exact g.trans hfill_ch4
    · have hagree2 : ∀ u ∈ ws, ∀ ft3 ∈ (["lox", "ch4"] : List String),
          ∀ c ∈ possible_names u ft3,
          (innerFuel acc w).hasCol c = df.hasCol c
          ∧ (innerFuel acc w).getCol c = df.getCol c := by
        intro u hu ft3 hft3 c hc
        have hwu : ¬ (w = u) := fun he => (List.nodup_cons.mp hnd).1 (he ▸ hu)
        have hne_l : c ≠ fullnessCol w "lox" :=
          fun he => canon_ne_possible hwdf (hdf u (by simp [hu])) hlox_mem hft3
            (fun hp => hwu hp.1) c hc he.symm
        have hne_c : c ≠ fullnessCol w "ch4" :=
          fun he => canon_ne_possible hwdf (hdf u (by simp [hu])) hch4_mem hft3
            (fun hp => hwu hp.1) c hc he.symm
        obtain ⟨g0, hh0⟩ := innerFuel_preserve acc w c hne_l hne_c
        exact ⟨hh0.trans (hagree u (by simp [hu]) ft3 hft3 c hc).1,
               g0.trans (hagree u (by simp [hu]) ft3 hft3 c hc).2⟩
      have hrows2 := fuelStep_nrows (fuelStep acc w "lox") w "ch4" hrows1.2
      exact ih (innerFuel acc w) (List.nodup_cons.mp hnd).2
        (fun u hu => hdf u (by simp [hu])) hagree2
        (hrows2.1.trans (hrows1.1.trans hrows)) hrows2.2 v hvws ft hft

theorem detect_vehicles_nil (df : DF) (h : df.cols = []) : detect_vehicles df = [] := by
  simp [detect_vehicles, DF.columns, h, sortStrings]

theorem prepare_fill (df : DF)
    (hnolox : ∀ v ∈ detect_vehicles df, df.hasCol (fullnessCol v "lox") = false) :
    ∀ v ∈ detect_vehicles df, ∀ ft ∈ (["lox", "ch4"] : List String),
      (prepare_fuel_data_columns df).hasCol (fullnessCol v ft) = true
      ∧ (prepare_fuel_data_columns df).getCol (fullnessCol v ft) = fillCol df v ft := by
  intro v hv ft hft
  have hany : (detect_vehicles df).any (fun v2 => df.hasCol (fullnessCol v2 "lox"))
      = false :=
    List.any_eq_false.mpr (fun x hx => by simp [hnolox x hx])
  have hprep := prepare_eq_foldFuel df hany
  have hcne : df.cols ≠ [] := by
    intro hnil
    rw [detect_vehicles_nil df hnil] at hv
    exact absurd hv (List.not_mem_nil v)
  constructor
  · rw [hprep]
    exact foldFuel_mem v ft hft (detect_vehicles df) df hv
  · rw [hprep]
    exact foldFuel_fill df (detect_vehicles df) df (detect_vehicles_nodup df)
      (fun u hu => detect_vehicles_dotFree df u hu)
      (fun u hu ft3 hft3 c hc => ⟨rfl, rfl⟩) rfl hcne v hv ft hft
/-- Claim C7 (amended): when NO detected vehicle has a canonical
`<v>.fuel.lox.fullness` column, the pass gives every detected vehicle both
canonical `<vehicle>.fuel.{lox,ch4}.fullness` columns, each a copy of the first
of the four historical name patterns present in the frame and a zero-filled
column of the frame's length when none is present, and never fails; but when
some vehicle already has a canonical LOX column the whole pass is skipped and
the table is returned unchanged (other vehicles' canonical columns are NOT
created). -/
theorem claim7_amended :
    (∀ df : DF, (∀ v ∈ detect_vehicles df, df.hasCol (fullnessCol v "lox") = false) →
       ∀ v ∈ detect_vehicles df, ∀ ft ∈ (["lox", "ch4"] : List String),
         (prepare_fuel_data_columns df).hasCol (fullnessCol v ft) = true
         ∧ (prepare_fuel_data_columns df).getCol (fullnessCol v ft)
             = fillCol df v ft)
    ∧ (∀ df : DF, (∃ v ∈ detect_vehicles df, df.hasCol (fullnessCol v "lox") = true) →
       prepare_fuel_data_columns df = df) := by
  constructor
  · exact fun df hall v hv ft hft => prepare_fill df hall v hv ft hft
  · intro df hex
    have hany : (detect_vehicles df).any (fun v2 => df.hasCol (fullnessCol v2 "lox"))
        = true :=
      List.any_eq_true.mpr (by obtain ⟨v, hv, h⟩ := hex; exact ⟨v, hv, h⟩)
    simp [prepare_fuel_data_columns, hany]

/-- Witness table for claim C7: vehicles `a` and `b`, no canonical fuel columns;
`a`'s LOX data sits under the historical name `a_fuel_lox_fullness`. -/
def dfC7w : DF :=
  ⟨[("a.speed", [some 1, some 2]), ("b.speed", [some 3, some 4]),
    ("a_fuel_lox_fullness", [some 7, some 8])]⟩

theorem claim7_witness :
    ((prepare_fuel_data_columns dfC7w).getCol (fullnessCol "a" "lox")
      = [some 7, some 8])
    ∧ ((prepare_fuel_data_columns dfC7w).getCol (fullnessCol "a" "ch4")
      = [some 0, some 0])
    ∧ ((prepare_fuel_data_columns dfC7w).hasCol (fullnessCol "b" "lox") = true)
    ∧ ((prepare_fuel_data_columns dfC7w).getCol (fullnessCol "b" "lox")
      = [some 0, some 0]) :=
  ⟨(claim7_amended.1 dfC7w (by decide) "a" (by decide) "lox" (by decide)).2.trans
     (by decide),
   (claim7_amended.1 dfC7w (by decide) "a" (by decide) "ch4" (by decide)).2.trans
     (by decide),
   (claim7_amended.1 dfC7w (by decide) "b" (by decide) "lox" (by decide)).1,
   (claim7_amended.1 dfC7w (by decide) "b" (by decide) "lox" (by decide)).2.trans
     (by decide)⟩
end Plot
